import Mathlib

/-!
Verification of the apikit code-generation pipeline (reation-io/apikit).

This file gives a shallow embedding, in Lean 4, of the parts of the
repository that the spec's claims are about:

* the field-extractor registry and its priority ordering
  (pkg/generator/extractors, registry source in src/unnamed/part_011);
* the helpers resolving wire parameter names and emitting extraction code
  (GetParameterName, GenerateExtractionCode, GenerateCodeByType,
  GenerateSliceCodeByType, GenerateDefaultValue and friends);
* the concrete extractors (path, form, query, header, cookie, body,
  request, response) and the per-struct code assembly
  (pkg/generator/codegen/generator.go, generateExtractionCode);
* the Go source parser's handler validation and nested-struct resolver
  (pkg/generator/parser/parser.go);
* the type-codec registry (pkg/generator/types/types.go);
* the checksum-based regeneration gate (src/unnamed/part_012 and
  cmd/apikit/cmd/generate.go);
* the timestamp helper NewTimeFromString (src/time.go).

Modelling conventions: Go strings are modelled by Lean String / List Char
(the directive and tag syntax handled by this code is ASCII, where Go's
byte indexing and character indexing coincide); Go maps used as read-only
tables are association lists; file contents are passed as explicit String
values (file I/O itself is outside the embedding); the SHA-256 function of
the gate and the time.Parse function of the standard library are abstracted
as function parameters, since the claims depend only on how their results
are used, never on their internals.
-/

/-! ## String utilities used by the Go code (package strings / byte scans) -/

/-- Does the first list start with the second (Go strings.HasPrefix on the
underlying characters)? -/
def listStartsWith : List Char → List Char → Bool
  | _, [] => true
  | [], _ :: _ => false
  | c :: cs, d :: ds => c == d && listStartsWith cs ds

/-- Go strings.Contains on character lists: the second list occurs
contiguously inside the first. -/
def containsSub : List Char → List Char → Bool
  | [], needle => listStartsWith [] needle
  | hay@(_ :: rest), needle => listStartsWith hay needle || containsSub rest needle

/-- Go strings.Contains on strings. -/
def strContains (s sub : String) : Bool := containsSub s.data sub.data

/-- ASCII whitespace, as unicode.IsSpace classifies the ASCII range
(space, tab, newline, carriage return, vertical tab, form feed). -/
def isSpaceChar (c : Char) : Bool :=
  c == ' ' || c == '\t' || c == '\n' || c == '\r' ||
    c == Char.ofNat 11 || c == Char.ofNat 12

/-- Go strings.TrimSpace on character lists. -/
def trimSpaceChars (l : List Char) : List Char :=
  ((l.dropWhile isSpaceChar).reverse.dropWhile isSpaceChar).reverse

/-- Go strings.TrimPrefix on character lists: drop the second list when it
is a leading run of the first, otherwise return the first unchanged. -/
def trimPreChars (l pre : List Char) : List Char :=
  if listStartsWith l pre then l.drop pre.length else l

/-- Go strings.TrimPrefix on strings. -/
def trimPreStr (s pre : String) : String := String.mk (trimPreChars s.data pre.data)

/-- Go strings.TrimSuffix on strings. -/
def trimSufStr (s suf : String) : String :=
  if s.data.reverse.take suf.data.length == suf.data.reverse then
    String.mk (s.data.take (s.data.length - suf.data.length))
  else s

/-- Accumulating scan for Go strings.Fields: the first argument is the
remaining input, the second the current word reversed. -/
def fieldsAux : List Char → List Char → List (List Char)
  | [], acc => if acc.isEmpty then [] else [acc.reverse]
  | c :: cs, acc =>
    if isSpaceChar c then
      if acc.isEmpty then fieldsAux cs [] else acc.reverse :: fieldsAux cs []
    else fieldsAux cs (c :: acc)

/-- Go strings.Fields on character lists: the whitespace-separated words. -/
def fieldsChars (l : List Char) : List (List Char) := fieldsAux l []

/-- Go strings.Fields on strings: the whitespace-separated words. -/
def strFields (s : String) : List String := (fieldsChars s.data).map String.mk

/-- Go strings.Split with separator a single character (the code only
splits on a newline): the pieces between occurrences, empties kept. -/
def splitOnChar (sep : Char) : List Char → List (List Char)
  | [] => [[]]
  | c :: cs =>
    if c == sep then [] :: splitOnChar sep cs
    else
      match splitOnChar sep cs with
      | [] => [[c]]
      | p :: ps => (c :: p) :: ps

/-! ## reflect.StructTag (Go standard library)

The repository reads struct tags through reflect.StructTag.Lookup and
reflect.StructTag.Get; both are embedded here from the Go standard
library's source, including the strconv.Unquote decoding of the quoted
value (simple escapes, hex, small-u and large-U unicode and octal escapes;
a numeric escape yields the character of its value, which coincides with
Go for values below 128 — tags in this repository are plain ASCII). -/

/-- Value of a hexadecimal digit. -/
def hexDigitVal (c : Char) : Option Nat :=
  if '0' ≤ c ∧ c ≤ '9' then some (c.toNat - 48)
  else if 'a' ≤ c ∧ c ≤ 'f' then some (c.toNat - 87)
  else if 'A' ≤ c ∧ c ≤ 'F' then some (c.toNat - 55)
  else none

/-- Value of an octal digit. -/
def octDigitVal (c : Char) : Option Nat :=
  if '0' ≤ c ∧ c ≤ '7' then some (c.toNat - 48) else none

/-- Is a numeric escape value a legal rune (not a surrogate, not above the
unicode maximum)? Mirrors the checks of Go's strconv.UnquoteChar. -/
def validRune (v : Nat) : Bool :=
  v < 0xD800 || (0xE000 ≤ v && v ≤ 0x10FFFF)

/-- Decode the body (between the double quotes) of a Go quoted string, as
strconv.Unquote does: simple escapes, hex, unicode and octal escapes; an
unescaped quote, a newline, a lone backslash or an unknown escape is a
syntax error (none). -/
def goUnquoteBody : List Char → Option (List Char)
  | [] => some []
  | c :: cs =>
    if c == '"' || c == '\n' then none
    else if c != '\\' then (goUnquoteBody cs).map (fun r => c :: r)
    else
      match cs with
      | [] => none
      | e :: cs₂ =>
        if e == 'a' then (goUnquoteBody cs₂).map (fun r => Char.ofNat 7 :: r)
        else if e == 'b' then (goUnquoteBody cs₂).map (fun r => Char.ofNat 8 :: r)
        else if e == 'f' then (goUnquoteBody cs₂).map (fun r => Char.ofNat 12 :: r)
        else if e == 'n' then (goUnquoteBody cs₂).map (fun r => '\n' :: r)
        else if e == 'r' then (goUnquoteBody cs₂).map (fun r => '\r' :: r)
        else if e == 't' then (goUnquoteBody cs₂).map (fun r => '\t' :: r)
        else if e == 'v' then (goUnquoteBody cs₂).map (fun r => Char.ofNat 11 :: r)
        else if e == '\\' then (goUnquoteBody cs₂).map (fun r => '\\' :: r)
        else if e == '"' then (goUnquoteBody cs₂).map (fun r => '"' :: r)
        else if e == 'x' then
          match cs₂ with
          | h₁ :: h₂ :: cs₃ =>
            match hexDigitVal h₁, hexDigitVal h₂ with
            | some a, some b => (goUnquoteBody cs₃).map (fun r => Char.ofNat (16 * a + b) :: r)
            | _, _ => none
          | _ => none
        else if e == 'u' then
          match cs₂ with
          | h₁ :: h₂ :: h₃ :: h₄ :: cs₃ =>
            match hexDigitVal h₁, hexDigitVal h₂, hexDigitVal h₃, hexDigitVal h₄ with
            | some a, some b, some c', some d =>
              let v := ((a * 16 + b) * 16 + c') * 16 + d
              if validRune v then (goUnquoteBody cs₃).map (fun r => Char.ofNat v :: r)
              else none
            | _, _, _, _ => none
          | _ => none
        else if e == 'U' then
          match cs₂ with
          | h₁ :: h₂ :: h₃ :: h₄ :: h₅ :: h₆ :: h₇ :: h₈ :: cs₃ =>
            match hexDigitVal h₁, hexDigitVal h₂, hexDigitVal h₃, hexDigitVal h₄,
                  hexDigitVal h₅, hexDigitVal h₆, hexDigitVal h₇, hexDigitVal h₈ with
            | some a, some b, some c', some d, some a', some b', some c'', some d' =>
              let v := ((((((a * 16 + b) * 16 + c') * 16 + d) * 16 + a') * 16 + b') * 16
                + c'') * 16 + d'
              if validRune v then (goUnquoteBody cs₃).map (fun r => Char.ofNat v :: r)
              else none
            | _, _, _, _, _, _, _, _ => none
          | _ => none
        else
          match octDigitVal e with
          | some o₁ =>
            match cs₂ with
            | d₂ :: d₃ :: cs₃ =>
              match octDigitVal d₂, octDigitVal d₃ with
              | some o₂, some o₃ =>
                let v := (o₁ * 8 + o₂) * 8 + o₃
                if v ≤ 255 then (goUnquoteBody cs₃).map (fun r => Char.ofNat v :: r)
                else none
              | _, _ => none
            | _ => none
          | none => none

/-- Go strconv.Unquote, restricted to a double-quoted string — the only
shape reflect.StructTag.Lookup ever feeds it. -/
def goUnquote (s : List Char) : Option (List Char) :=
  match s with
  | '"' :: rest =>
    match rest.getLast? with
    | some '"' => goUnquoteBody rest.dropLast
    | _ => none
  | _ => none

/-- One character of a tag key, per reflect.StructTag.Lookup's scan: above
the space character, not a colon, a quote or the delete character. -/
def tagNameChar (c : Char) : Bool :=
  32 < c.toNat && c != ':' && c != '"' && c.toNat != 127

/-- Scan a quoted tag value from the characters after the opening quote,
skipping backslash-escaped characters, as Lookup's inner loop does.
Returns the raw value characters and the remainder after the closing
quote; none when the quote is never closed. -/
def scanQuoted : List Char → Option (List Char × List Char)
  | [] => none
  | '"' :: rest => some ([], rest)
  | '\\' :: c :: rest => (scanQuoted rest).map (fun p => ('\\' :: c :: p.1, p.2))
  | '\\' :: [] => none
  | c :: rest => (scanQuoted rest).map (fun p => (c :: p.1, p.2))

/-- The loop of reflect.StructTag.Lookup, with explicit fuel standing for
the loop's progress through the tag (each iteration consumes at least one
character, so tag length plus one is always enough fuel). -/
def tagLookupAux (key : List Char) : Nat → List Char → Option (List Char)
  | 0, _ => none
  | fuel + 1, tag =>
    let tag := tag.dropWhile (· == ' ')
    if tag.isEmpty then none
    else
      let name := tag.takeWhile tagNameChar
      let rest := tag.drop name.length
      match name, rest with
      | [], _ => none
      | _, ':' :: '"' :: valrest =>
        match scanQuoted valrest with
        | none => none
        | some (content, remainder) =>
          if key == name then
            goUnquote ('"' :: (content ++ ['"']))
          else
            tagLookupAux key fuel remainder
      | _, _ => none

/-- reflect.StructTag.Lookup: some value when the key is present (the
value may be empty), none when absent or the tag is malformed. -/
def tagLookup (tag key : String) : Option String :=
  (tagLookupAux key.data (tag.data.length + 1) tag.data).map String.mk

/-- reflect.StructTag.Get: Lookup's value, or the empty string. -/
def tagGet (tag key : String) : String := (tagLookup tag key).getD ""

example : tagLookup "query:\"x\"" "query" = some "x" := by decide
example : tagLookup "query:\"\"" "query" = some "" := by decide
example : tagLookup "json:\"search\"" "query" = none := by decide
example : tagLookup "path:\"id\" query:\"q\"" "query" = some "q" := by decide
example : tagGet "default:\"10\"" "default" = "10" := by decide

/-! ## The parser's data model (pkg/generator/parser)

parser.Field and parser.Struct, as parser.go declares them. A field's flat
data is separated from its optional NestedStruct so that the two types can
be mutually inductive. -/

/-- The flat members of parser.Field. -/
structure FieldData where
  name : String := ""
  type : String := ""
  isPointer : Bool := false
  isSlice : Bool := false
  sliceType : String := ""
  structTag : String := ""
  inComment : String := ""
  inCommentName : String := ""
  isBody : Bool := false
  isRawBody : Bool := false
  isResponseWriter : Bool := false
  isRequest : Bool := false
  isEmbedded : Bool := false
  isFile : Bool := false
  packagePath : String := ""
deriving DecidableEq, Repr

mutual
/-- parser.Struct: name, DTO flag and ordered field list. -/
inductive GoStruct where
  | mk (name : String) (isDTO : Bool) (fields : List GoField)

/-- parser.Field: its flat data plus the optional resolved NestedStruct. -/
inductive GoField where
  | mk (data : FieldData) (nested : Option GoStruct)
end

/-- Name of a parser.Struct. -/
def GoStruct.name : GoStruct → String
  | .mk n _ _ => n

/-- DTO flag of a parser.Struct. -/
def GoStruct.isDTO : GoStruct → Bool
  | .mk _ d _ => d

/-- Field list of a parser.Struct. -/
def GoStruct.fields : GoStruct → List GoField
  | .mk _ _ fs => fs

/-- Flat data of a parser.Field. -/
def GoField.data : GoField → FieldData
  | .mk d _ => d

/-- Resolved NestedStruct of a parser.Field. -/
def GoField.nested : GoField → Option GoStruct
  | .mk _ n => n

/-- A field with the given flat data and no resolved nested struct. -/
def GoField.ofData (d : FieldData) : GoField := .mk d none

/-! ## Directive comments (parser.go: extractInComment, extractDefaultComment) -/

/-- parser.go extractInComment: the source and optional override name of a
freeform "in: SOURCE [NAME]" comment; ("", "") when the comment is not an
in-directive. -/
def extractInComment (comment : String) : String × String :=
  let c := trimPreStr comment "//"
  let c := trimPreStr c "/*"
  let c := trimSufStr c "*/"
  let c := String.mk (trimSpaceChars c.data)
  if listStartsWith c.data "in:".data then
    let value := trimPreStr c "in:"
    let value := String.mk (trimSpaceChars value.data)
    match strFields value with
    | [] => ("", "")
    | [source] => (source, "")
    | source :: nm :: _ => (source, nm)
  else ("", "")

/-- parser.go extractDefaultComment: the value of a freeform
"default: VALUE" comment, or "". -/
def extractDefaultComment (comment : String) : String :=
  let c := trimPreStr comment "//"
  let c := trimPreStr c "/*"
  let c := trimSufStr c "*/"
  let c := String.mk (trimSpaceChars c.data)
  if listStartsWith c.data "default:".data then
    String.mk (trimSpaceChars (trimPreStr c "default:").data)
  else ""

example : extractInComment "// in: query y" = ("query", "y") := by decide
example : extractInComment "// in:path userId" = ("path", "userId") := by decide
example : extractInComment "// in:query" = ("query", "") := by decide
example : extractDefaultComment "// default: 10" = "10" := by decide

/-! ## Name resolution and type predicates (extractors registry helpers) -/

/-- extractors.toCamelCase: the first character, when an ASCII capital, is
shifted to lowercase by adding 32; everything else is unchanged. -/
def toCamelCase (s : String) : String :=
  match s.data with
  | [] => s
  | c :: cs =>
    if 'A' ≤ c ∧ c ≤ 'Z' then String.mk (Char.ofNat (c.toNat + 32) :: cs)
    else String.mk (c :: cs)

/-- extractors.GetParameterName: the structured tag's value for the source
when present and non-empty, else the freeform directive's override name
when non-empty, else the field name in camelCase. -/
def GetParameterName (field : FieldData) (tagName : String) : String :=
  let fromTag : Option String :=
    if field.structTag != "" then
      match tagLookup field.structTag tagName with
      | some val => if val != "" then some val else none
      | none => none
    else none
  match fromTag with
  | some val => val
  | none =>
    if field.inCommentName != "" then field.inCommentName
    else toCamelCase field.name

/-- extractors.IsIntType. -/
def IsIntType (typeName : String) : Bool :=
  typeName == "int" || typeName == "int8" || typeName == "int16" ||
    typeName == "int32" || typeName == "int64"

/-- extractors.IsUintType. -/
def IsUintType (typeName : String) : Bool :=
  typeName == "uint" || typeName == "uint8" || typeName == "uint16" ||
    typeName == "uint32" || typeName == "uint64"

/-- extractors.IsFloatType. -/
def IsFloatType (typeName : String) : Bool :=
  typeName == "float32" || typeName == "float64"

/-- extractors.IsBoolType. -/
def IsBoolType (typeName : String) : Bool := typeName == "bool"

/-- extractors.IsStringType. -/
def IsStringType (typeName : String) : Bool := typeName == "string"

/-- extractors.GetBaseType: the type name stripped of a pointer star, or
the slice element type for a slice field. -/
def GetBaseType (field : FieldData) : String :=
  let typeName := field.type
  let typeName := if field.isPointer then trimPreStr typeName "*" else typeName
  if field.isSlice then field.sliceType else typeName

/-- extractors.GetDefaultTag: the default key of the field's struct tag. -/
def GetDefaultTag (field : FieldData) : String :=
  if field.structTag == "" then "" else tagGet field.structTag "default"

/-! ## The type-codec registry (pkg/generator/types/types.go)

types.Extractor, the registry map, the built-in codecs of registerBuiltins,
and the file-upload codecs registered by the load-time init in the types
package (src/unnamed/part_013). The Go map keyed by type name is an
association list here; Register replaces an entry of the same name. -/

/-- types.Extractor: a codec. The Go field Import is importPath here. -/
structure TypeExtractor where
  typeName : String
  importPath : String := ""
  parseFunc : String → String → Bool → String
  requiresError : Bool := false

/-- Registry.Register: map assignment keyed by TypeName. -/
def registerType (reg : List TypeExtractor) (e : TypeExtractor) : List TypeExtractor :=
  if reg.any (fun x => x.typeName == e.typeName) then
    reg.map (fun x => if x.typeName == e.typeName then e else x)
  else reg ++ [e]

/-- Registry.Get: lookup by type name. -/
def typesGet (reg : List TypeExtractor) (t : String) : Option TypeExtractor :=
  reg.find? (fun x => x.typeName == t)

/-- The string codec of registerBuiltins. -/
def stringCodec : TypeExtractor :=
  { typeName := "string",
    parseFunc := fun src dst isPtr =>
      if isPtr then "val := " ++ src ++ "\npayload." ++ dst ++ " = &val"
      else "payload." ++ dst ++ " = " ++ src }

/-- One signed-integer codec of registerIntType. -/
def intCodec (t : String) : TypeExtractor :=
  { typeName := t,
    parseFunc := fun src dst isPtr =>
      if isPtr then
        "if i, err := strconv.ParseInt(" ++ src ++ ", 10, 64); err == nil \x7b\n\tval := "
          ++ t ++ "(i)\n\tpayload." ++ dst ++ " = &val\n\x7d else \x7b\n\treturn " ++
          "fmt.Errorf(\"invalid " ++ dst ++ ": %w\", err)\n\x7d"
      else
        "if i, err := strconv.ParseInt(" ++ src ++ ", 10, 64); err == nil \x7b\n\tpayload."
          ++ dst ++ " = " ++ t ++ "(i)\n\x7d else \x7b\n\treturn " ++
          "fmt.Errorf(\"invalid " ++ dst ++ ": %w\", err)\n\x7d",
    requiresError := true }

/-- One unsigned-integer codec of registerUintType. -/
def uintCodec (t : String) : TypeExtractor :=
  { typeName := t,
    parseFunc := fun src dst isPtr =>
      if isPtr then
        "if u, err := strconv.ParseUint(" ++ src ++ ", 10, 64); err == nil \x7b\n\tval := "
          ++ t ++ "(u)\n\tpayload." ++ dst ++ " = &val\n\x7d else \x7b\n\treturn " ++
          "fmt.Errorf(\"invalid " ++ dst ++ ": %w\", err)\n\x7d"
      else
        "if u, err := strconv.ParseUint(" ++ src ++ ", 10, 64); err == nil \x7b\n\tpayload."
          ++ dst ++ " = " ++ t ++ "(u)\n\x7d else \x7b\n\treturn " ++
          "fmt.Errorf(\"invalid " ++ dst ++ ": %w\", err)\n\x7d",
    requiresError := true }

/-- One float codec of registerFloatType. -/
def floatCodec (t : String) (bits : String) : TypeExtractor :=
  { typeName := t,
    parseFunc := fun src dst isPtr =>
      if isPtr then
        "if f, err := strconv.ParseFloat(" ++ src ++ ", " ++ bits ++ "); err == nil " ++
          "\x7b\n\tval := " ++ t ++ "(f)\n\tpayload." ++ dst ++ " = &val\n\x7d else " ++
          "\x7b\n\treturn fmt.Errorf(\"invalid " ++ dst ++ ": %w\", err)\n\x7d"
      else
        "if f, err := strconv.ParseFloat(" ++ src ++ ", " ++ bits ++ "); err == nil " ++
          "\x7b\n\tpayload." ++ dst ++ " = " ++ t ++ "(f)\n\x7d else \x7b\n\treturn " ++
          "fmt.Errorf(\"invalid " ++ dst ++ ": %w\", err)\n\x7d",
    requiresError := true }

/-- The bool codec of registerBuiltins. -/
def boolCodec : TypeExtractor :=
  { typeName := "bool",
    parseFunc := fun src dst isPtr =>
      if isPtr then
        "if b, err := strconv.ParseBool(" ++ src ++ "); err == nil \x7b\n\tval := b\n\t" ++
          "payload." ++ dst ++ " = &val\n\x7d else \x7b\n\treturn " ++
          "fmt.Errorf(\"invalid " ++ dst ++ ": %w\", err)\n\x7d"
      else
        "if b, err := strconv.ParseBool(" ++ src ++ "); err == nil \x7b\n\tpayload." ++
          dst ++ " = b\n\x7d else \x7b\n\treturn " ++
          "fmt.Errorf(\"invalid " ++ dst ++ ": %w\", err)\n\x7d",
    requiresError := true }

/-- The time.Time codec of registerBuiltins. -/
def timeCodec : TypeExtractor :=
  { typeName := "time.Time",
    importPath := "github.com/reation-io/apikit/pkg/apikit",
    parseFunc := fun src dst isPtr =>
      if isPtr then
        "if t, err := apikit.NewTimeFromString(" ++ src ++ "); err == nil \x7b\n\t" ++
          "payload." ++ dst ++ " = &t\n\x7d else \x7b\n\treturn " ++
          "fmt.Errorf(\"invalid " ++ dst ++ ": %w\", err)\n\x7d"
      else
        "if t, err := apikit.NewTimeFromString(" ++ src ++ "); err == nil \x7b\n\t" ++
          "payload." ++ dst ++ " = t\n\x7d else \x7b\n\treturn " ++
          "fmt.Errorf(\"invalid " ++ dst ++ ": %w\", err)\n\x7d",
    requiresError := true }

/-- One file-upload codec of registerFileTypes (src/unnamed/part_013). -/
def fileCodec (t : String) : TypeExtractor :=
  { typeName := t,
    importPath := "mime/multipart",
    parseFunc := fun src dst _ => "payload." ++ dst ++ " = " ++ src }

/-- types.DefaultRegistry after NewRegistry's registerBuiltins and the file
types registered by the types package's load-time init. -/
def DefaultRegistry : List TypeExtractor :=
  ([stringCodec] ++
    (["int", "int8", "int16", "int32", "int64"].map intCodec) ++
    (["uint", "uint8", "uint16", "uint32", "uint64"].map uintCodec) ++
    [floatCodec "float32" "32", floatCodec "float64" "64", boolCodec, timeCodec,
      fileCodec "*multipart.FileHeader", fileCodec "[]*multipart.FileHeader"]).foldl
    registerType []

/-! ## Code-generation helpers (src/unnamed/part_011)

The templates are transcribed byte for byte from the Go raw strings; a
left or right brace of the generated Go code is written with its hex
escape. -/

/-- extractors.GenerateIntParsing. -/
def GenerateIntParsing (varName fieldName typeName : String) : String :=
  "if i, err := strconv.ParseInt(" ++ varName ++ ", 10, 64); err == nil \x7b\n\t\t" ++
    "payload." ++ fieldName ++ " = " ++ typeName ++ "(i)\n\t\x7d else \x7b\n\t\t" ++
    "return fmt.Errorf(\"invalid " ++ fieldName ++ ": %w\", err)\n\t\x7d"

/-- extractors.GenerateUintParsing. -/
def GenerateUintParsing (varName fieldName typeName : String) : String :=
  "if i, err := strconv.ParseUint(" ++ varName ++ ", 10, 64); err == nil \x7b\n\t\t" ++
    "payload." ++ fieldName ++ " = " ++ typeName ++ "(i)\n\t\x7d else \x7b\n\t\t" ++
    "return fmt.Errorf(\"invalid " ++ fieldName ++ ": %w\", err)\n\t\x7d"

/-- extractors.GenerateFloatParsing. -/
def GenerateFloatParsing (varName fieldName bitSize : String) : String :=
  "if f, err := strconv.ParseFloat(" ++ varName ++ ", " ++ bitSize ++ "); err == nil " ++
    "\x7b\n\t\tpayload." ++ fieldName ++ " = float" ++ bitSize ++ "(f)\n\t\x7d else " ++
    "\x7b\n\t\treturn fmt.Errorf(\"invalid " ++ fieldName ++ ": %w\", err)\n\t\x7d"

/-- extractors.GenerateBoolParsing. -/
def GenerateBoolParsing (varName fieldName : String) : String :=
  "if b, err := strconv.ParseBool(" ++ varName ++ "); err == nil \x7b\n\t\t" ++
    "payload." ++ fieldName ++ " = b\n\t\x7d else \x7b\n\t\t" ++
    "return fmt.Errorf(\"invalid " ++ fieldName ++ ": %w\", err)\n\t\x7d"

/-- A hexadecimal digit character (lowercase), for strconv.Quote. -/
def hexChar (n : Nat) : Char :=
  if n < 10 then Char.ofNat (48 + n) else Char.ofNat (87 + n)

/-- Go strconv.Quote of one character: quote and backslash are escaped,
printable ASCII passes through, the seven control characters with
mnemonic escapes get them, anything else below 256 a hex escape
(characters above 255 do not occur in this repository's default
directives). -/
def quoteChar (c : Char) : List Char :=
  if c == '"' then ['\\', '"']
  else if c == '\\' then ['\\', '\\']
  else if 32 ≤ c.toNat ∧ c.toNat ≤ 126 then [c]
  else if c == Char.ofNat 7 then ['\\', 'a']
  else if c == Char.ofNat 8 then ['\\', 'b']
  else if c == Char.ofNat 12 then ['\\', 'f']
  else if c == '\n' then ['\\', 'n']
  else if c == '\r' then ['\\', 'r']
  else if c == '\t' then ['\\', 't']
  else if c == Char.ofNat 11 then ['\\', 'v']
  else ['\\', 'x', hexChar (c.toNat / 16 % 16), hexChar (c.toNat % 16)]

/-- Go strconv.Quote: the value double-quoted with escapes. -/
def goQuote (s : String) : String :=
  String.mk ('"' :: (s.data.flatMap quoteChar ++ ['"']))

/-- extractors.GenerateDefaultValue. -/
def GenerateDefaultValue (fieldName defaultValue typeName : String) : String :=
  if listStartsWith typeName.data "int".data || listStartsWith typeName.data "uint".data then
    "payload." ++ fieldName ++ " = " ++ defaultValue
  else if listStartsWith typeName.data "float".data then
    "payload." ++ fieldName ++ " = " ++ defaultValue
  else if typeName == "bool" then
    "payload." ++ fieldName ++ " = " ++ defaultValue
  else if typeName == "string" then
    "payload." ++ fieldName ++ " = " ++ goQuote defaultValue
  else
    "payload." ++ fieldName ++ " = " ++ defaultValue

/-- extractors.GenerateExtractionCode: wrap the type-specific parsing code
(or, for strings, a direct assignment) in the emptiness test, with the
default value in the else branch when the field declares one. The Go code
passes a nil parsing function in the string case, modelled by none. -/
def GenerateExtractionCode (varName fieldName typeName : String) (field : FieldData)
    (parsingFunc : Option (String → String → String)) (imports : List String) :
    String × List String :=
  let defaultTag := GetDefaultTag field
  let hasDefault := defaultTag != ""
  if IsStringType typeName then
    if hasDefault then
      ("if val := " ++ varName ++ "; val != \"\" \x7b\n\t\tpayload." ++ fieldName ++
        " = val\n\t\x7d else \x7b\n\t\t" ++
        GenerateDefaultValue fieldName defaultTag typeName ++ "\n\t\x7d", imports)
    else
      ("if val := " ++ varName ++ "; val != \"\" \x7b\n\t\tpayload." ++ fieldName ++
        " = val\n\t\x7d", imports)
  else
    let parsingCode :=
      match parsingFunc with
      | some pf => pf "val" fieldName
      | none => ""
    if hasDefault then
      ("if val := " ++ varName ++ "; val != \"\" \x7b\n\t\t" ++ parsingCode ++
        "\n\t\x7d else \x7b\n\t\t" ++ GenerateDefaultValue fieldName defaultTag typeName ++
        "\n\t\x7d", imports)
    else
      ("if val := " ++ varName ++ "; val != \"\" \x7b\n\t\t" ++ parsingCode ++ "\n\t\x7d",
        imports)

/-- extractors.GenerateCodeByType: dispatch on the field type; built-in
scalars use the parsing generators, other names consult the codec
registry, and an unregistered non-embedded name falls back to a bare cast
of the raw string. -/
def GenerateCodeByType (varName fieldName typeName : String) (field : FieldData) :
    String × List String :=
  if IsStringType typeName then
    GenerateExtractionCode varName fieldName typeName field none []
  else if IsIntType typeName then
    GenerateExtractionCode varName fieldName typeName field
      (some (fun v f => GenerateIntParsing v f typeName)) ["strconv"]
  else if IsUintType typeName then
    GenerateExtractionCode varName fieldName typeName field
      (some (fun v f => GenerateUintParsing v f typeName)) ["strconv"]
  else if IsFloatType typeName then
    let bitSize := if typeName == "float32" then "32" else "64"
    GenerateExtractionCode varName fieldName typeName field
      (some (fun v f => GenerateFloatParsing v f bitSize)) ["strconv"]
  else if IsBoolType typeName then
    GenerateExtractionCode varName fieldName typeName field
      (some (fun v f => GenerateBoolParsing v f)) ["strconv"]
  else
    match typesGet DefaultRegistry typeName with
    | some te =>
      let imports := if te.importPath != "" then [te.importPath] else []
      GenerateExtractionCode varName fieldName typeName field
        (some (fun v f => te.parseFunc v f field.isPointer)) imports
    | none =>
      if !field.isEmbedded then
        GenerateExtractionCode varName fieldName typeName field
          (some (fun v f => "payload." ++ f ++ " = " ++ typeName ++ "(" ++ v ++ ")")) []
      else ("", [])

/-- extractors.GenerateSliceCodeByType: per-element parsing for built-in
scalars and registered codecs; an unregistered element type falls back to
assigning the raw string slice unchanged. -/
def GenerateSliceCodeByType (varName fieldName elementType : String) (field : FieldData) :
    String × List String :=
  if IsStringType elementType then
    ("if vals := " ++ varName ++ "; len(vals) > 0 \x7b\n\t\tpayload." ++ fieldName ++
      " = vals\n\t\x7d", [])
  else if IsIntType elementType then
    ("if vals := " ++ varName ++ "; len(vals) > 0 \x7b\n\t\tpayload." ++ fieldName ++
      " = make([]" ++ elementType ++ ", 0, len(vals))\n\t\tfor i, val := range vals " ++
      "\x7b\n\t\t\tif parsed, err := strconv.ParseInt(val, 10, 64); err == nil " ++
      "\x7b\n\t\t\t\tpayload." ++ fieldName ++ " = append(payload." ++ fieldName ++ ", " ++
      elementType ++ "(parsed))\n\t\t\t\x7d else \x7b\n\t\t\t\t" ++
      "return fmt.Errorf(\"invalid " ++ fieldName ++
      "[%d]: %w\", i, err)\n\t\t\t\x7d\n\t\t\x7d\n\t\x7d", ["strconv"])
  else if IsUintType elementType then
    ("if vals := " ++ varName ++ "; len(vals) > 0 \x7b\n\t\tpayload." ++ fieldName ++
      " = make([]" ++ elementType ++ ", 0, len(vals))\n\t\tfor i, val := range vals " ++
      "\x7b\n\t\t\tif parsed, err := strconv.ParseUint(val, 10, 64); err == nil " ++
      "\x7b\n\t\t\t\tpayload." ++ fieldName ++ " = append(payload." ++ fieldName ++ ", " ++
      elementType ++ "(parsed))\n\t\t\t\x7d else \x7b\n\t\t\t\t" ++
      "return fmt.Errorf(\"invalid " ++ fieldName ++
      "[%d]: %w\", i, err)\n\t\t\t\x7d\n\t\t\x7d\n\t\x7d", ["strconv"])
  else if IsFloatType elementType then
    let bitSize := if elementType == "float32" then "32" else "64"
    ("if vals := " ++ varName ++ "; len(vals) > 0 \x7b\n\t\tpayload." ++ fieldName ++
      " = make([]" ++ elementType ++ ", 0, len(vals))\n\t\tfor i, val := range vals " ++
      "\x7b\n\t\t\tif parsed, err := strconv.ParseFloat(val, " ++ bitSize ++ "); err == nil " ++
      "\x7b\n\t\t\t\tpayload." ++ fieldName ++ " = append(payload." ++ fieldName ++ ", " ++
      elementType ++ "(parsed))\n\t\t\t\x7d else \x7b\n\t\t\t\t" ++
      "return fmt.Errorf(\"invalid " ++ fieldName ++
      "[%d]: %w\", i, err)\n\t\t\t\x7d\n\t\t\x7d\n\t\x7d", ["strconv"])
  else if IsBoolType elementType then
    ("if vals := " ++ varName ++ "; len(vals) > 0 \x7b\n\t\tpayload." ++ fieldName ++
      " = make([]bool, 0, len(vals))\n\t\tfor i, val := range vals " ++
      "\x7b\n\t\t\tif parsed, err := strconv.ParseBool(val); err == nil " ++
      "\x7b\n\t\t\t\tpayload." ++ fieldName ++ " = append(payload." ++ fieldName ++
      ", parsed)\n\t\t\t\x7d else \x7b\n\t\t\t\t" ++
      "return fmt.Errorf(\"invalid " ++ fieldName ++
      "[%d]: %w\", i, err)\n\t\t\t\x7d\n\t\t\x7d\n\t\x7d", ["strconv"])
  else
    match typesGet DefaultRegistry elementType with
    | some te =>
      let imports := if te.importPath != "" then [te.importPath] else []
      ("if vals := " ++ varName ++ "; len(vals) > 0 \x7b\n\t\tpayload." ++ fieldName ++
        " = make([]" ++ elementType ++ ", 0, len(vals))\n\t\tfor _, val := range vals " ++
        "\x7b\n\t\t\tvar parsed " ++ elementType ++ "\n\t\t\t" ++
        te.parseFunc "val" "parsed" false ++ "\n\t\t\tpayload." ++ fieldName ++
        " = append(payload." ++ fieldName ++ ", parsed)\n\t\t\x7d\n\t\x7d", imports)
    | none =>
      ("if vals := " ++ varName ++ "; len(vals) > 0 \x7b\n\t\tpayload." ++ fieldName ++
        " = vals\n\t\x7d", [])

/-! ## The extractor registry and the eight extractors

extractors.Extractor (interface), Register / GetExtractors / GetExtractor
over the global registry, and the eight registered extractors. Register
appends and then re-sorts the whole registry with slices.SortFunc, whose
implementation is Go's pattern-defeating quicksort (pdqsortCmpFunc and
its helpers in slices/zsortanyfunc.go, generated from the sort package).
That sort is embedded here in full, one definition per Go function, over
a list with indexed reads and swaps. Every Go loop becomes a structurally
recursive definition; where the loop variable itself does not count down,
the recursion runs on an explicit iteration budget chosen larger than the
loop can iterate on any reachable call, so the budget-exhausted branch is
dead code. Go int indices are Nats here: all reachable index arithmetic
is non-negative, the one int-specific countdown (heapsort's pop loop on
the empty range) is rendered by an explicit guard. The comparator
subtracts priorities; priorities are small constants, so Int subtraction
matches Go's int subtraction. -/

/-- The extractors.Extractor interface: name, priority, predicate and code
generator (field, owning struct name to code and imports). -/
structure Extractor where
  name : String
  priority : Int
  canExtract : FieldData → Bool
  generateCode : FieldData → String → String × List String

/-- Default element for indexed reads: Go indexing never leaves the slice
bounds on the sort's reachable calls; a default read keeps the embedding
total. -/
instance : Inhabited Extractor :=
  ⟨{ name := "", priority := 0, canExtract := fun _ => false,
     generateCode := fun _ _ => ("", []) }⟩

/-- Read data[i]. -/
def dGet {α : Type} [Inhabited α] (data : List α) (i : Nat) : α :=
  data.getD i default

/-- Go's parallel swap data[i], data[j] = data[j], data[i]. -/
def dSwap {α : Type} [Inhabited α] (data : List α) (i j : Nat) : List α :=
  (data.set i (dGet data j)).set j (dGet data i)

/-- Inner loop of insertionSortCmpFunc: for j := i; j > a and cmp(data[j],
data[j-1]) < 0; j-- swap data[j], data[j-1]. The Nat argument is j. -/
def insertionInner {α : Type} [Inhabited α] (cmp : α → α → Int) (a : Nat) :
    List α → Nat → List α
  | data, 0 => data
  | data, j + 1 =>
    if a < j + 1 ∧ cmp (dGet data (j + 1)) (dGet data j) < 0 then
      insertionInner cmp a (dSwap data (j + 1) j) j
    else data

/-- Outer loop of insertionSortCmpFunc: the first Nat argument counts the
remaining iterations of for i := a + 1; i < b; i++, the second is i. -/
def insertionLoop {α : Type} [Inhabited α] (cmp : α → α → Int) (a : Nat) :
    Nat → Nat → List α → List α
  | 0, _, data => data
  | n + 1, i, data => insertionLoop cmp a n (i + 1) (insertionInner cmp a data i)

/-- insertionSortCmpFunc: in-place insertion sort of data[a:b]. -/
def insertionSortArr {α : Type} [Inhabited α] (cmp : α → α → Int)
    (data : List α) (a b : Nat) : List α :=
  insertionLoop cmp a (b - (a + 1)) (a + 1) data

/-- siftDownCmpFunc: restores the heap property below the given root of
the heap lying at offset first with hi elements. The first Nat argument
is an iteration budget; the root index at least doubles each pass and the
loop stops once 2 root + 1 reaches hi. -/
def siftDownF {α : Type} [Inhabited α] (cmp : α → α → Int) (first hi : Nat) :
    Nat → List α → Nat → List α
  | 0, data, _ => data
  | fuel + 1, data, root =>
    let child := 2 * root + 1
    if hi ≤ child then data
    else
      let child :=
        if child + 1 < hi ∧
            cmp (dGet data (first + child)) (dGet data (first + child + 1)) < 0 then
          child + 1
        else child
      if ¬ cmp (dGet data (first + root)) (dGet data (first + child)) < 0 then data
      else siftDownF cmp first hi fuel (dSwap data (first + root) (first + child)) child

/-- First loop of heapSortCmpFunc (build the heap, greatest element on
top): for i := (hi-1)/2; i >= 0; i-- siftDown(data, i, hi, first). The
Nat argument is the running index i. -/
def heapBuild {α : Type} [Inhabited α] (cmp : α → α → Int) (first hi : Nat) :
    Nat → List α → List α
  | 0, data => siftDownF cmp first hi (hi + 1) data 0
  | i + 1, data => heapBuild cmp first hi i (siftDownF cmp first hi (hi + 1) data (i + 1))

/-- Second loop of heapSortCmpFunc (pop elements, largest first, into the
end): for i := hi-1; i >= 0; i-- swap data[first], data[first+i] then
siftDown(data, 0, i, first). The Nat argument is the running index i. -/
def heapPop {α : Type} [Inhabited α] (cmp : α → α → Int) (first : Nat) :
    Nat → List α → List α
  | 0, data => siftDownF cmp first 0 1 (dSwap data first first) 0
  | i + 1, data =>
    heapPop cmp first i
      (siftDownF cmp first (i + 1) (i + 2) (dSwap data first (first + (i + 1))) 0)

/-- heapSortCmpFunc on data[a:b]. The guard renders the int countdown
condition i >= 0 for the empty range: with hi = 0 the pop loop runs zero
times in Go. -/
def heapSortArr {α : Type} [Inhabited α] (cmp : α → α → Int)
    (data : List α) (a b : Nat) : List α :=
  let first := a
  let hi := b - a
  let data := heapBuild cmp first hi ((hi - 1) / 2) data
  if hi = 0 then data else heapPop cmp first (hi - 1) data

/-- Advance loop of partialInsertionSortCmpFunc: for i < b and not
cmp(data[i], data[i-1]) < 0 i++. The first Nat argument is an iteration
budget, the last is i. -/
def advanceSorted {α : Type} [Inhabited α] (cmp : α → α → Int) (b : Nat) :
    Nat → List α → Nat → Nat
  | 0, _, i => i
  | fuel + 1, data, i =>
    if i < b ∧ ¬ cmp (dGet data i) (dGet data (i - 1)) < 0 then
      advanceSorted cmp b fuel data (i + 1)
    else i

/-- Left shift of partialInsertionSortCmpFunc (shift the smaller one to
the left): for j := i-1; j >= 1; j-- break unless cmp(data[j], data[j-1])
< 0, else swap. The Nat argument is j. -/
def shiftLeftLoop {α : Type} [Inhabited α] (cmp : α → α → Int) :
    Nat → List α → List α
  | 0, data => data
  | j + 1, data =>
    if cmp (dGet data (j + 1)) (dGet data j) < 0 then
      shiftLeftLoop cmp j (dSwap data (j + 1) j)
    else data

/-- Right shift of partialInsertionSortCmpFunc (shift the greater one to
the right): for j := i+1; j < b; j++ break unless cmp(data[j], data[j-1])
< 0, else swap. The first Nat argument is an iteration budget, the last
is j. -/
def shiftRightLoop {α : Type} [Inhabited α] (cmp : α → α → Int) (b : Nat) :
    Nat → List α → Nat → List α
  | 0, data, _ => data
  | fuel + 1, data, j =>
    if j < b ∧ cmp (dGet data j) (dGet data (j - 1)) < 0 then
      shiftRightLoop cmp b fuel (dSwap data j (j - 1)) (j + 1)
    else data

/-- Outer loop of partialInsertionSortCmpFunc: at most maxSteps = 5
adjacent out-of-order pairs are swapped and shifted, and no shifting at
all happens below shortestShifting = 50 elements. The first Nat argument
counts the remaining steps, the last is i. -/
def partInsertionSteps {α : Type} [Inhabited α] (cmp : α → α → Int) (a b : Nat) :
    Nat → List α → Nat → List α × Bool
  | 0, data, _ => (data, false)
  | steps + 1, data, i =>
    let i := advanceSorted cmp b (b + 1) data i
    if i = b then (data, true)
    else if b - a < 50 then (data, false)
    else
      let data := dSwap data i (i - 1)
      let data := if 2 ≤ i - a then shiftLeftLoop cmp (i - 1) data else data
      let data := if 2 ≤ b - i then shiftRightLoop cmp b (b + 1) data (i + 1) else data
      partInsertionSteps cmp a b steps data i

/-- partialInsertionSortCmpFunc: partially sorts data[a:b] and reports
whether the range is sorted at the end. -/
def partInsertionSort {α : Type} [Inhabited α] (cmp : α → α → Int)
    (data : List α) (a b : Nat) : List α × Bool :=
  partInsertionSteps cmp a b 5 data (a + 1)

/-- reverseRangeCmpFunc: for i, j := a, b-1; i < j swap and move inward
(the Go function's cmp parameter is unused). The first Nat argument is an
iteration budget. -/
def reverseRangeF {α : Type} [Inhabited α] :
    Nat → List α → Nat → Nat → List α
  | 0, data, _, _ => data
  | fuel + 1, data, i, j =>
    if i < j then reverseRangeF fuel (dSwap data i j) (i + 1) (j - 1) else data

/-- reverseRangeCmpFunc on data[a:b]. -/
def reverseRangeArr {α : Type} [Inhabited α] (data : List α) (a b : Nat) : List α :=
  reverseRangeF (b + 1) data a (b - 1)

/-- sortedHint, the pivot-choice hint of choosePivotCmpFunc. -/
inductive SortedHint where
  | unknownHint
  | increasingHint
  | decreasingHint
deriving DecidableEq

/-- order2CmpFunc: returns x, y with data[x] at most data[y], counting
comparison-reversing swaps. -/
def order2F {α : Type} [Inhabited α] (cmp : α → α → Int) (data : List α)
    (a b swaps : Nat) : Nat × Nat × Nat :=
  if cmp (dGet data b) (dGet data a) < 0 then (b, a, swaps + 1) else (a, b, swaps)

/-- medianCmpFunc: the index among a, b, c holding the median value. -/
def medianF {α : Type} [Inhabited α] (cmp : α → α → Int) (data : List α)
    (a b c swaps : Nat) : Nat × Nat :=
  let (a, b, swaps) := order2F cmp data a b swaps
  let (b, _, swaps) := order2F cmp data b c swaps
  let (_, b, swaps) := order2F cmp data a b swaps
  (b, swaps)

/-- medianAdjacentCmpFunc: median of data[a-1], data[a], data[a+1]. -/
def medianAdjacentF {α : Type} [Inhabited α] (cmp : α → α → Int) (data : List α)
    (a swaps : Nat) : Nat × Nat :=
  medianF cmp data (a - 1) a (a + 1) swaps

/-- choosePivotCmpFunc: for lengths below 8 the static middle-quartile
pivot, then median of three, and from shortestNinther = 50 on the Tukey
ninther of the three quartile indices; zero swaps hint an increasing
slice, maxSwaps = 12 swaps a decreasing one. -/
def choosePivotF {α : Type} [Inhabited α] (cmp : α → α → Int) (data : List α)
    (a b : Nat) : Nat × SortedHint :=
  let l := b - a
  let i := a + l / 4 * 1
  let j := a + l / 4 * 2
  let k := a + l / 4 * 3
  if 8 ≤ l then
    let (i, j, k, swaps) :=
      if 50 ≤ l then
        let (i, s1) := medianAdjacentF cmp data i 0
        let (j, s2) := medianAdjacentF cmp data j s1
        let (k, s3) := medianAdjacentF cmp data k s2
        (i, j, k, s3)
      else (i, j, k, 0)
    let (j, swaps) := medianF cmp data i j k swaps
    if swaps = 12 then (j, SortedHint.decreasingHint)
    else if swaps = 0 then (j, SortedHint.increasingHint)
    else (j, SortedHint.unknownHint)
  else (j, SortedHint.increasingHint)

/-- Scan of partitionCmpFunc moving i right: for i <= j and cmp(data[i],
data[a]) < 0 i++. The first Nat argument is an iteration budget. -/
def partScanI {α : Type} [Inhabited α] (cmp : α → α → Int) (data : List α)
    (a j : Nat) : Nat → Nat → Nat
  | 0, i => i
  | fuel + 1, i =>
    if i ≤ j ∧ cmp (dGet data i) (dGet data a) < 0 then
      partScanI cmp data a j fuel (i + 1)
    else i

/-- Scan of partitionCmpFunc moving j left: for i <= j and not
cmp(data[j], data[a]) < 0 j--. -/
def partScanJ {α : Type} [Inhabited α] (cmp : α → α → Int) (data : List α)
    (a i : Nat) : Nat → Nat → Nat
  | 0, j => j
  | fuel + 1, j =>
    if i ≤ j ∧ ¬ cmp (dGet data j) (dGet data a) < 0 then
      partScanJ cmp data a i fuel (j - 1)
    else j

/-- Main loop of partitionCmpFunc after the first crossing swap; returns
the data and the final j. -/
def partLoop {α : Type} [Inhabited α] (cmp : α → α → Int) (a : Nat) :
    Nat → List α → Nat → Nat → List α × Nat
  | 0, data, _, j => (data, j)
  | fuel + 1, data, i, j =>
    let i := partScanI cmp data a j (j + 2) i
    let j := partScanJ cmp data a i (j + 2) j
    if j < i then (data, j)
    else partLoop cmp a fuel (dSwap data i j) (i + 1) (j - 1)

/-- partitionCmpFunc: one quicksort partition of data[a:b] around
data[pivot]; returns the new data, the pivot's final position and whether
the slice was already partitioned. The opening swap data[a], data[pivot]
= data[pivot], data[a] is what can move an element past equal-comparing
peers. -/
def partitionArr {α : Type} [Inhabited α] (cmp : α → α → Int) (data : List α)
    (a b pivot : Nat) : List α × Nat × Bool :=
  let data := dSwap data a pivot
  let i := a + 1
  let j := b - 1
  let i := partScanI cmp data a j (b + 2) i
  let j := partScanJ cmp data a i (b + 2) j
  if j < i then (dSwap data j a, j, true)
  else
    let data := dSwap data i j
    let (data, j) := partLoop cmp a (b + 2) data (i + 1) (j - 1)
    (dSwap data j a, j, false)

/-- Scan of partitionEqualCmpFunc moving i right: for i <= j and not
cmp(data[a], data[i]) < 0 i++. -/
def partEqScanI {α : Type} [Inhabited α] (cmp : α → α → Int) (data : List α)
    (a j : Nat) : Nat → Nat → Nat
  | 0, i => i
  | fuel + 1, i =>
    if i ≤ j ∧ ¬ cmp (dGet data a) (dGet data i) < 0 then
      partEqScanI cmp data a j fuel (i + 1)
    else i

/-- Scan of partitionEqualCmpFunc moving j left: for i <= j and
cmp(data[a], data[j]) < 0 j--. -/
def partEqScanJ {α : Type} [Inhabited α] (cmp : α → α → Int) (data : List α)
    (a i : Nat) : Nat → Nat → Nat
  | 0, j => j
  | fuel + 1, j =>
    if i ≤ j ∧ cmp (dGet data a) (dGet data j) < 0 then
      partEqScanJ cmp data a i fuel (j - 1)
    else j

/-- Loop of partitionEqualCmpFunc; returns the data and the final i. -/
def partEqLoop {α : Type} [Inhabited α] (cmp : α → α → Int) (a : Nat) :
    Nat → List α → Nat → Nat → List α × Nat
  | 0, data, i, _ => (data, i)
  | fuel + 1, data, i, j =>
    let i := partEqScanI cmp data a j (j + 2) i
    let j := partEqScanJ cmp data a i (j + 2) j
    if j < i then (data, i)
    else partEqLoop cmp a fuel (dSwap data i j) (i + 1) (j - 1)

/-- partitionEqualCmpFunc: partitions data[a:b] (which holds nothing
smaller than data[pivot]) into elements equal to data[pivot] followed by
greater ones; returns the first index of the greater half. -/
def partitionEqualArr {α : Type} [Inhabited α] (cmp : α → α → Int)
    (data : List α) (a b pivot : Nat) : List α × Nat :=
  let data := dSwap data a pivot
  partEqLoop cmp a (b + 2) data (a + 1) (b - 1)

/-- One step of the sort package's xorshift generator: 64-bit state,
shifts 13 left, 7 right, 17 left; the returned value is the new state. -/
def xorshiftNext (r : Nat) : Nat :=
  let r := (r ^^^ (r <<< 13)) % 2 ^ 64
  let r := r ^^^ (r >>> 7)
  (r ^^^ (r <<< 17)) % 2 ^ 64

/-- bits.Len: the number of bits needed to represent n. -/
def goBitsLen (n : Nat) : Nat := if n = 0 then 0 else Nat.log2 n + 1

/-- nextPowerOfTwo as the sort package computes it: 1 shifted left by
bits.Len(length). -/
def nextPowerOfTwoGo (length : Nat) : Nat := 1 <<< goBitsLen length

/-- Loop of breakPatternsCmpFunc: three swaps of the positions around the
middle pivot candidate with positions drawn from the generator. The first
Nat argument counts remaining iterations, the second is the generator
state. -/
def breakPatternsLoop {α : Type} [Inhabited α] (a length modulus idx : Nat) :
    Nat → Nat → List α → List α
  | 0, _, data => data
  | count + 1, rnd, data =>
    let rnd := xorshiftNext rnd
    let other := rnd &&& (modulus - 1)
    let other := if length ≤ other then other - length else other
    let i := 3 - (count + 1)
    breakPatternsLoop a length modulus idx count rnd
      (dSwap data (idx - 1 + i) (a + other))

/-- breakPatternsCmpFunc: scatters some elements around to break patterns
that might cause imbalanced partitions; the generator is seeded with the
length, and only ranges of at least 8 elements are touched. -/
def breakPatternsArr {α : Type} [Inhabited α] (data : List α) (a b : Nat) : List α :=
  let length := b - a
  if 8 ≤ length then
    let modulus := nextPowerOfTwoGo length
    let idx := a + length / 4 * 2 - 1
    breakPatternsLoop a length modulus idx 3 length data
  else data

/-- pdqsortCmpFunc: sorts data[a:b]; limit counts the allowed unbalanced
pivots before falling back to heapsort; ranges of at most maxInsertion =
12 elements go straight to insertion sort. The Bool arguments are the
wasBalanced / wasPartitioned loop state, true on function entry; the
recursive calls on the shorter half re-enter with both true, the loop
continuation on the longer half keeps the updated state. The first Nat
argument bounds the recursion depth and loop count together; every
continuation strictly shrinks b - a, so any budget above the initial
length is never exhausted. -/
def pdqsortF {α : Type} [Inhabited α] (cmp : α → α → Int) :
    Nat → List α → Nat → Nat → Nat → Bool → Bool → List α
  | 0, data, _, _, _, _, _ => data
  | fuel + 1, data, a, b, limit, wasBalanced, wasPartitioned =>
    let length := b - a
    if length ≤ 12 then insertionSortArr cmp data a b
    else if limit = 0 then heapSortArr cmp data a b
    else
      let (data, limit) :=
        if ¬ wasBalanced then (breakPatternsArr data a b, limit - 1)
        else (data, limit)
      let (pivot, hint) := choosePivotF cmp data a b
      let (data, pivot, hint) :=
        if hint = SortedHint.decreasingHint then
          (reverseRangeArr data a b, (b - 1) - (pivot - a), SortedHint.increasingHint)
        else (data, pivot, hint)
      let (data, sorted) :=
        if wasBalanced ∧ wasPartitioned ∧ hint = SortedHint.increasingHint then
          partInsertionSort cmp data a b
        else (data, false)
      if sorted then data
      else if 0 < a ∧ ¬ cmp (dGet data (a - 1)) (dGet data pivot) < 0 then
        let (data, mid) := partitionEqualArr cmp data a b pivot
        pdqsortF cmp fuel data mid b limit wasBalanced wasPartitioned
      else
        let (data, mid, alreadyPartitioned) := partitionArr cmp data a b pivot
        let wasPartitioned := alreadyPartitioned
        let leftLen := mid - a
        let rightLen := b - mid
        let balanceThreshold := length / 8
        let wasBalanced := balanceThreshold ≤ min leftLen rightLen
        let limit := limit - 1
        if leftLen < rightLen then
          let data := pdqsortF cmp fuel data a mid limit true true
          pdqsortF cmp fuel data (mid + 1) b limit wasBalanced wasPartitioned
        else
          let data := pdqsortF cmp fuel data (mid + 1) b limit true true
          pdqsortF cmp fuel data a mid limit wasBalanced wasPartitioned

/-- slices.SortFunc: pdqsort over the whole slice, with the bad-pivot
limit bits.Len of the length. -/
def SortFuncGo {α : Type} [Inhabited α] (x : List α) (cmp : α → α → Int) : List α :=
  pdqsortF cmp (x.length + 1) x 0 x.length (goBitsLen x.length) true true

/-- Insert one element into a list, sinking past strictly smaller-compared
elements only: one pass of an insertion sort, as a function. Reference
model for the bounded-registry proofs, compared below with the in-place
sort the source runs. -/
def sortInsert {α : Type} (cmp : α → α → Int) (x : α) : List α → List α
  | [] => [x]
  | y :: ys => if cmp x y < 0 then x :: y :: ys else y :: sortInsert cmp x ys

/-- Reference model: left-to-right insertion sort as a fold, proved below
equal to the sort slices.SortFunc runs on slices of at most maxInsertion
= 12 elements. -/
def insertionFold {α : Type} (cmp : α → α → Int) (l : List α) : List α :=
  l.foldl (fun acc x => sortInsert cmp x acc) []

/-- The comparator Register passes to slices.SortFunc. -/
def extrCmp (e1 e2 : Extractor) : Int := e1.priority - e2.priority

/-- extractors.Register: append to the registry, then sort with
slices.SortFunc under the priority-difference comparator. -/
def Register (registry : List Extractor) (e : Extractor) : List Extractor :=
  SortFuncGo (registry ++ [e]) extrCmp

/-- The registry after a whole sequence of registrations. -/
def registerAll (es : List Extractor) : List Extractor := es.foldl Register []

/-- A named extractor of the given priority with trivial behaviour, for
exercising Register on longer registration sequences. -/
def mkPriExtractor (nm : String) (p : Int) : Extractor :=
  { name := nm, priority := p, canExtract := fun _ => false,
    generateCode := fun _ _ => ("", []) }

/-- Thirteen registrations: two priority-10 extractors first, ten more in
increasing priority order, then one priority-5 extractor, whose Register
call sorts thirteen elements and so leaves insertion-sort territory. -/
def cexRegistrations : List Extractor :=
  [mkPriExtractor "A" 10, mkPriExtractor "B" 10, mkPriExtractor "C" 20,
   mkPriExtractor "D" 30, mkPriExtractor "E" 40, mkPriExtractor "F" 50,
   mkPriExtractor "G" 60, mkPriExtractor "H" 70, mkPriExtractor "I" 80,
   mkPriExtractor "J" 90, mkPriExtractor "K" 100, mkPriExtractor "L" 110,
   mkPriExtractor "M" 5]

/-- extractors.GetExtractors: the registry's list, already sorted. -/
def GetExtractors (registry : List Extractor) : List Extractor := registry

/-- extractors.GetExtractor: the first registered extractor accepting the
field. -/
def GetExtractor (registry : List Extractor) (field : FieldData) : Option Extractor :=
  registry.find? (fun e => e.canExtract field)

/-- PathExtractor (pkg/generator/extractors/path_extractor.go). -/
def PathExtractor : Extractor :=
  { name := "path", priority := 10,
    canExtract := fun field =>
      if field.structTag != "" && (tagLookup field.structTag "path").isSome then true
      else field.inComment == "path",
    generateCode := fun field _ =>
      let paramName := GetParameterName field "path"
      let fieldName := field.name
      let typeName := GetBaseType field
      let varName := "r.PathValue(\"" ++ paramName ++ "\")"
      GenerateCodeByType varName fieldName typeName field }

/-- FormExtractor's generateFileCode. -/
def generateFileCode (field : FieldData) (formName : String) : String :=
  if field.isSlice then
    "if form := r.MultipartForm; form != nil \x7b\n\t\tif files := form.File[\"" ++
      formName ++ "\"]; len(files) > 0 \x7b\n\t\t\tpayload." ++ field.name ++
      " = files\n\t\t\x7d\n\t\x7d"
  else
    "if _, header, err := r.FormFile(\"" ++ formName ++ "\"); err == nil \x7b\n\t\t" ++
      "payload." ++ field.name ++ " = header\n\t\x7d else if err != http.ErrMissingFile " ++
      "\x7b\n\t\treturn fmt.Errorf(\"reading file \x27" ++ formName ++
      "\x27: %w\", err)\n\t\x7d"

/-- FormExtractor (src/unnamed/part_014). -/
def FormExtractor : Extractor :=
  { name := "form", priority := 15,
    canExtract := fun field =>
      if field.isRequest || field.isResponseWriter || field.isRawBody then false
      else if field.structTag != "" && (tagLookup field.structTag "form").isSome then true
      else field.inComment == "form",
    generateCode := fun field _ =>
      let formName := GetParameterName field "form"
      if field.isFile then
        (generateFileCode field formName, ["mime/multipart"])
      else if field.isSlice then
        ("if vals := r.Form[\"" ++ formName ++ "\"]; len(vals) > 0 \x7b\n\t\tpayload." ++
          field.name ++ " = vals\n\t\x7d", [])
      else
        let varName := "r.FormValue(\"" ++ formName ++ "\")"
        GenerateCodeByType varName field.name field.type field }

/-- QueryExtractor (src/unnamed/part_014). -/
def QueryExtractor : Extractor :=
  { name := "query", priority := 20,
    canExtract := fun field =>
      if field.structTag != "" && (tagLookup field.structTag "query").isSome then true
      else field.inComment == "query",
    generateCode := fun field _ =>
      let paramName := GetParameterName field "query"
      let fieldName := field.name
      let typeName := GetBaseType field
      if field.isSlice then
        let varName := "r.URL.Query()[\"" ++ paramName ++ "\"]"
        GenerateSliceCodeByType varName fieldName field.sliceType field
      else
        let varName := "r.URL.Query().Get(\"" ++ paramName ++ "\")"
        GenerateCodeByType varName fieldName typeName field }

/-- HeaderExtractor (src/unnamed/part_010). -/
def HeaderExtractor : Extractor :=
  { name := "header", priority := 30,
    canExtract := fun field =>
      if field.structTag != "" && (tagLookup field.structTag "header").isSome then true
      else field.inComment == "header",
    generateCode := fun field _ =>
      let headerName := GetParameterName field "header"
      let fieldName := field.name
      let typeName := GetBaseType field
      if field.isSlice then
        let varName := "r.Header[\"" ++ headerName ++ "\"]"
        GenerateSliceCodeByType varName fieldName field.sliceType field
      else
        let varName := "r.Header.Get(\"" ++ headerName ++ "\")"
        GenerateCodeByType varName fieldName typeName field }

/-- CookieExtractor (pkg/generator/extractors/cookie_extractor.go). -/
def CookieExtractor : Extractor :=
  { name := "cookie", priority := 35,
    canExtract := fun field =>
      if field.structTag != "" && (tagLookup field.structTag "cookie").isSome then true
      else field.inComment == "cookie",
    generateCode := fun field _ =>
      let cookieName := GetParameterName field "cookie"
      let fieldName := field.name
      let typeName := GetBaseType field
      let varName := "apikit.GetCookie(r, \"" ++ cookieName ++ "\")"
      GenerateCodeByType varName fieldName typeName field }

/-- BodyExtractor (pkg/generator/extractors/body_extractor.go): body
parsing happens at struct level, so the field-level code is empty. -/
def BodyExtractor : Extractor :=
  { name := "body", priority := 40,
    canExtract := fun field =>
      if field.isRequest || field.isResponseWriter || field.isRawBody then false
      else if field.isBody then true
      else if field.structTag != "" then (tagLookup field.structTag "json").isSome
      else false,
    generateCode := fun _ _ => ("", []) }

/-- RequestExtractor (src/unnamed/part_011). -/
def RequestExtractor : Extractor :=
  { name := "request", priority := 50,
    canExtract := fun field => field.isRequest,
    generateCode := fun field _ => ("payload." ++ field.name ++ " = r", []) }

/-- ResponseExtractor (src/unnamed/part_011). -/
def ResponseExtractor : Extractor :=
  { name := "response", priority := 60,
    canExtract := fun field => field.isResponseWriter,
    generateCode := fun field _ => ("payload." ++ field.name ++ " = w", []) }

/-- The global registry after the eight load-time Register calls (package
initialization runs the extractor files in name order; the result is the
same for any order, since the eight priorities are pairwise distinct). -/
def theExtractors : List Extractor :=
  registerAll [BodyExtractor, CookieExtractor, FormExtractor, HeaderExtractor,
    PathExtractor, QueryExtractor, RequestExtractor, ResponseExtractor]

example : theExtractors.map Extractor.name =
    ["path", "form", "query", "header", "cookie", "body", "request", "response"] := by
  decide

example : theExtractors.map Extractor.priority = [10, 15, 20, 30, 35, 40, 50, 60] := by
  decide

/-! ## Per-struct code assembly (pkg/generator/codegen/generator.go)

generateExtractionCode: walk the struct's fields in declaration order; an
embedded field contributes its nested struct's assembled code as one line;
a raw-body field is skipped; every other field gets the code of the first
registered extractor accepting it (when non-empty), and the collected
lines are joined. The imports map is a deduplicating list here. -/

/-- Insert an import if absent (map assignment into the imports set). -/
def insertImport (imps : List String) (i : String) : List String :=
  if imps.contains i then imps else imps ++ [i]

/-- Go strings.Join with the separator the assembly uses. -/
def joinLines : List String → String
  | [] => ""
  | [l] => l
  | l :: ls => l ++ "\n\t" ++ joinLines ls

mutual
/-- codegen generateExtractionCode. -/
def generateExtractionCode (s : GoStruct) (imps : List String) : String × List String :=
  match s with
  | .mk sname _ fields =>
    let (lines, imps') := genLines sname fields imps
    (joinLines lines, imps')

/-- The field loop of generateExtractionCode. -/
def genLines (structName : String) (fields : List GoField) (imps : List String) :
    List String × List String :=
  match fields with
  | [] => ([], imps)
  | .mk d nested :: fs =>
    if d.isEmbedded then
      match nested with
      | some ns =>
        let (nestedCode, imps₁) := generateExtractionCode ns imps
        let (rest, imps₂) := genLines structName fs imps₁
        (if nestedCode != "" then nestedCode :: rest else rest, imps₂)
      | none => genLines structName fs imps
    else if d.isRawBody then genLines structName fs imps
    else
      match theExtractors.find? (fun e => e.canExtract d) with
      | some ext =>
        let (code, newImps) := ext.generateCode d structName
        if code != "" then
          let imps₁ := newImps.foldl insertImport imps
          let (rest, imps₂) := genLines structName fs imps₁
          (code :: rest, imps₂)
        else genLines structName fs imps
      | none => genLines structName fs imps
end

/-! ## The regeneration gate (src/unnamed/part_012, cmd/apikit/cmd/generate.go)

File contents are explicit values: the artifact is an Option String (none
when no prior artifact exists, matching the os.IsNotExist branch), and the
SHA-256 of CalculateFileChecksum is an abstract hash parameter — the gate
uses it only through equality of its results. -/

/-- The literal part of checksumPattern. -/
def checksumLit : List Char := "// apikit:checksum:".data

/-- A lowercase-hex character, the character class of checksumPattern. -/
def isHexLower (c : Char) : Bool :=
  (decide ('a' ≤ c) && decide (c ≤ 'f')) || (decide ('0' ≤ c) && decide (c ≤ '9'))

/-- Leftmost match of checksumPattern in one line: at each start position
the literal must be followed by sixty-four lowercase-hex characters, and
the capture group is those characters. -/
def findChecksumAt : List Char → Option (List Char)
  | [] => none
  | l@(_ :: rest) =>
    if listStartsWith l checksumLit then
      let after := l.drop checksumLit.length
      let hexRun := after.take 64
      if hexRun.length == 64 && hexRun.all isHexLower then some hexRun
      else findChecksumAt rest
    else findChecksumAt rest

/-- The line loop of ExtractChecksum over the already-bounded lines. -/
def extractFromLines : List (List Char) → String
  | [] => ""
  | l :: ls =>
    match findChecksumAt l with
    | some checksumHex => String.mk checksumHex
    | none => extractFromLines ls

/-- checksum.ExtractChecksum: the marker's checksum from the first ten
lines of the artifact; "" when the artifact does not exist or carries no
marker. -/
def ExtractChecksum (artifact : Option String) : String :=
  match artifact with
  | none => ""
  | some content => extractFromLines ((splitOnChar '\n' content.data).take 10)

/-- checksum.HasSourceChanged with the hash function abstract: changed
when no checksum is stored, or the stored one differs from the hash of the
current source. -/
def HasSourceChanged (hash : String → String) (source : String)
    (artifact : Option String) : Bool :=
  let currentChecksum := hash source
  let storedChecksum := ExtractChecksum artifact
  if storedChecksum == "" then true else currentChecksum != storedChecksum

/-- What generateWithParser does with one source file before any parsing. -/
inductive GenOutcome where
  | skipped
  | processed
deriving DecidableEq, Repr

/-- The regeneration decision of generateWithParser: without the force
flag, an unchanged source returns early (skipped) before ParseFile,
classification or synthesis run; in every other case the function goes on
to parse and generate. -/
def generateWithParserGate (force : Bool) (hash : String → String) (source : String)
    (artifact : Option String) : GenOutcome :=
  if !force then
    if !(HasSourceChanged hash source artifact) then .skipped else .processed
  else .processed

/-! ## The timestamp helper (src/time.go)

time.Parse is abstracted as a parameter taking layout and input; the
helper uses it only through success or failure per layout. -/

/-- apikit.CommonTimeFormats, in source order (the first entry is Go's
time.RFC3339 constant). -/
def CommonTimeFormats : List String :=
  ["2006-01-02T15:04:05Z07:00",
   "2006-01-02T15:04:05",
   "2006-01-02T15:04:05.999",
   "2006-01-02T15:04:05.999Z",
   "2006-01-02T15:04:05.999-07:00",
   "2006-01-02 15:04:05",
   "2006-01-02"]

/-- The loop of NewTimeFromString over the remaining layouts. -/
def tryFormats {τ : Type} (parse : String → String → Option τ) (s : String) :
    List String → Except String τ
  | [] => .error "unable to parse time: expected RFC3339 or common date format"
  | fmt :: rest =>
    match parse fmt s with
    | some t => .ok t
    | none => tryFormats parse s rest

/-- apikit.NewTimeFromString: first layout of CommonTimeFormats that
parses wins; exhausting the list is an error. -/
def NewTimeFromString {τ : Type} (parse : String → String → Option τ) (s : String) :
    Except String τ :=
  tryFormats parse s CommonTimeFormats

/-! ## The nested-type resolver (parser.go resolveNestedStructsRecursive)

The parser's struct cache (p.structs) is the association list from type
name to parsed struct. loadExternalStruct performs file-system package
loading and is outside the embedding: a cache miss leaves the field
unresolved, which is also the code's behaviour when the external load
fails (silent degradation). The Go function recurses with a shared
visited set; here the visited list is threaded through explicitly, and an
explicit fuel argument stands for the call stack — the termination theorem
shows a computable fuel bound with which the out-of-fuel answer (none) is
never reached. -/

/-- Struct-cache lookup (p.structs[typeName]). -/
def lookupStruct (cache : List (String × GoStruct)) (t : String) : Option GoStruct :=
  (cache.find? (fun p => p.1 == t)).map Prod.snd

/-- The base type name a field resolves through: the type stripped of a
pointer star, or the slice element type (resolver lines of parser.go). -/
def fieldBaseType (d : FieldData) : String :=
  let typeName := d.type
  let typeName := if d.isPointer then String.mk (trimPreChars typeName.data "*".data)
    else typeName
  if d.isSlice then d.sliceType else typeName

/-- The package-qualifier split of the resolver: a type name of the form
alias dot name records the alias in PackagePath. -/
def setPackagePath (d : FieldData) (typeName : String) : FieldData :=
  if containsSub typeName.data ".".data then
    match splitOnChar '.' typeName.data with
    | [pkgAlias, _] => { d with packagePath := String.mk pkgAlias }
    | _ => d
  else d

mutual
/-- resolveNestedStructsRecursive on one struct: an already-visited name
returns at once; otherwise the name is marked visited and every field is
resolved in order. -/
def resolveStructF (cache : List (String × GoStruct)) :
    Nat → GoStruct → List String → Option (GoStruct × List String)
  | 0, _, _ => none
  | fuel + 1, s, visited =>
    if visited.contains s.name then some (s, visited)
    else
      match resolveFieldsF cache fuel s.fields (s.name :: visited) with
      | none => none
      | some (fs', v') => some (.mk s.name s.isDTO fs', v')
termination_by fuel _ _ => (fuel, 0, 0)

/-- The field loop of the resolver, threading the shared visited set. -/
def resolveFieldsF (cache : List (String × GoStruct)) :
    Nat → List GoField → List String → Option (List GoField × List String)
  | _, [], v => some ([], v)
  | fuel, f :: fs, v =>
    match resolveFieldF cache fuel f v with
    | none => none
    | some (f', v') =>
      match resolveFieldsF cache fuel fs v' with
      | none => none
      | some (fs', v'') => some (f' :: fs', v'')
termination_by fuel fs _ => (fuel, 1, fs.length)

/-- One field of the resolver: special fields are skipped; a cached base
type that is already visited gets the name-and-flags-only stub with an
empty field list; an unvisited one gets a resolved copy; an unknown name
stays unresolved. -/
def resolveFieldF (cache : List (String × GoStruct)) (fuel : Nat) (f : GoField)
    (v : List String) : Option (GoField × List String) :=
  match f with
  | .mk d nested =>
    if d.isRawBody || d.isResponseWriter || d.isRequest then some (.mk d nested, v)
    else
      let typeName := fieldBaseType d
      let d' := setPackagePath d typeName
      match lookupStruct cache typeName with
      | some ns =>
        if v.contains typeName then
          some (.mk d' (some (.mk ns.name ns.isDTO [])), v)
        else
          match resolveStructF cache fuel ns v with
          | none => none
          | some (ns', v') => some (.mk d' (some ns'), v')
      | none => some (.mk d' nested, v)
termination_by (fuel, 0, 1)
end

/-- The number of cache entries whose struct name is not yet visited: the
resolver's recursion-depth bound (each recursing nested call marks one
such name visited before descending). -/
def unvisitedCount (cache : List (String × GoStruct)) (visited : List String) : Nat :=
  (cache.filter (fun p => !visited.contains p.2.name)).length

/-- The resolver at its sufficient fuel (the termination theorem shows the
fuel is never exhausted at this bound). -/
def resolveStruct (cache : List (String × GoStruct)) (s : GoStruct)
    (visited : List String) : Option (GoStruct × List String) :=
  resolveStructF cache (unvisitedCount cache visited + 2) s visited

/-! ## Handler scanning and validation (parser.go)

The syntax-tree types the validation inspects, reduced to what
typeToString, getTypeName and the shape predicates read. -/

/-- An ast.Expr in a parameter or result position. -/
inductive TypeExpr where
  | ident (name : String)
  | star (t : TypeExpr)
  | sel (pkg : String) (name : String)
  | arr (len : Option String) (elt : TypeExpr)
  | mapT (k : TypeExpr) (vT : TypeExpr)
  | ifaceAny
  | other
deriving DecidableEq, Repr

/-- parser typeToString. -/
def typeToString : TypeExpr → String
  | .ident n => n
  | .star t => "*" ++ typeToString t
  | .sel pkg n => pkg ++ "." ++ n
  | .arr none e => "[]" ++ typeToString e
  | .arr (some l) e => "[" ++ l ++ "]" ++ typeToString e
  | .mapT k vT => "map[" ++ typeToString k ++ "]" ++ typeToString vT
  | .ifaceAny => "any"
  | .other => ""

/-- parser getTypeName: the bare name, without package or pointer. -/
def getTypeName : TypeExpr → String
  | .ident n => n
  | .star t => getTypeName t
  | .sel _ n => n
  | _ => ""

/-- parser isContextType. -/
def isContextType : TypeExpr → Bool
  | .sel pkg n => pkg == "context" && n == "Context"
  | _ => false

/-- parser isErrorType. -/
def isErrorType : TypeExpr → Bool
  | .ident n => n == "error"
  | _ => false

/-- parser isResponseWriterType. -/
def isResponseWriterType : TypeExpr → Bool
  | .sel pkg n => pkg == "http" && n == "ResponseWriter"
  | _ => false

/-- parser isRequestType. -/
def isRequestType : TypeExpr → Bool
  | .star (.sel pkg n) => pkg == "http" && n == "Request"
  | _ => false

/-- An ast.FuncDecl, reduced to what the handler scan reads: name, doc
comment lines, position (as the fileset renders it), receiver, parameter
type groups and result type groups (none models a nil Results). -/
structure FuncDecl where
  name : String
  doc : List String := []
  pos : String := ""
  recv : Option TypeExpr := none
  params : List TypeExpr := []
  results : Option (List TypeExpr) := none
deriving DecidableEq, Repr

/-- parser hasApikitComment: some doc line contains the handler marker. -/
def hasApikitComment (fn : FuncDecl) : Bool :=
  fn.doc.any (fun c => strContains c "apikit:handler")

/-- parser isValidHandlerSignature: two to four parameters, the first
context.Context, any beyond the second a response writer or a request
pointer, and exactly two results with the second the error type. -/
def isValidHandlerSignature (fn : FuncDecl) : Bool :=
  match fn.params with
  | p₀ :: _ :: rest =>
    if fn.params.length > 4 then false
    else if !isContextType p₀ then false
    else if !(rest.all (fun p => isResponseWriterType p || isRequestType p)) then false
    else
      match fn.results with
      | some [_, r₂] => isErrorType r₂
      | _ => false
  | _ => false

/-- parser.Handler, as parseHandler fills it. -/
structure Handler where
  name : String
  pkg : String
  pos : String
  receiver : String := ""
  paramType : String
  hasResponseWriter : Bool := false
  hasRequest : Bool := false
  strct : Option GoStruct := none
  returnType : String

/-- parser parseHandler: skip silently without the marker; warn and skip
on an invalid signature; otherwise build the Handler. The result pairs
the optional handler with the warnings this call appends. -/
def parseHandler (structs : List (String × GoStruct)) (fn : FuncDecl) (pkgName : String) :
    Option Handler × List String :=
  if !hasApikitComment fn then (none, [])
  else if !isValidHandlerSignature fn then
    (none,
      [fn.pos ++ ": function " ++ fn.name ++ " has apikit:handler comment but invalid signature"])
  else
    match fn.params with
    | _ :: p₁ :: rest =>
      let receiver :=
        match fn.recv with
        | some t => typeToString t
        | none => ""
      let hasRW := rest.any isResponseWriterType
      let hasReq := rest.any (fun p => !isResponseWriterType p && isRequestType p)
      let structName := getTypeName p₁
      let strct := (structs.find? (fun q => q.1 == structName)).map Prod.snd
      match fn.results with
      | some (r₁ :: _) =>
        (some { name := fn.name, pkg := pkgName, pos := fn.pos, receiver := receiver,
                paramType := typeToString p₁, hasResponseWriter := hasRW,
                hasRequest := hasReq, strct := strct, returnType := typeToString r₁ }, [])
      | _ => (none, [fn.pos ++ ": function " ++ fn.name ++ " has no return values"])
    | _ => (none, [fn.pos ++ ": function " ++ fn.name ++ " has insufficient parameters"])

/-- The handler pass of ParseFile: every function declaration is offered
to parseHandler; accepted handlers and appended warnings keep their
declaration order, and the scan itself never fails (only go/parser's
syntax errors abort a file, before this pass runs). -/
def findHandlers (structs : List (String × GoStruct)) (pkgName : String) :
    List FuncDecl → List Handler × List String
  | [] => ([], [])
  | fn :: fns =>
    let (h, w) := parseHandler structs fn pkgName
    let (hs, ws) := findHandlers structs pkgName fns
    (match h with
     | some hh => hh :: hs
     | none => hs, w ++ ws)

/-! ## Further definitions the theorems quantify over -/

/-- Boolean-level inclusion of visited lists. -/
def visSub (v v' : List String) : Prop :=
  ∀ x, v.contains x = true → v'.contains x = true

/-- Priority order on extractors. -/
def priLE (a b : Extractor) : Prop := a.priority ≤ b.priority

mutual
/-- The fragment list the spec describes for one struct: fields in
declaration order, an embedded field contributing its nested struct's
joined block, every other field (raw body aside) the non-empty code of
the first registered extractor accepting it. Defined independently of the
imports threading of generateExtractionCode, to be compared with it. -/
def specFragments (s : GoStruct) : List String :=
  match s with
  | .mk sname _ fields => specFieldFrags sname fields

/-- Per-field fragments of specFragments. -/
def specFieldFrags (structName : String) : List GoField → List String
  | [] => []
  | .mk d nested :: fs =>
    (if d.isEmbedded then
      match nested with
      | some ns =>
        if joinLines (specFragments ns) != "" then [joinLines (specFragments ns)] else []
      | none => []
    else if d.isRawBody then []
    else
      match theExtractors.find? (fun e => e.canExtract d) with
      | some ext =>
        let code := (ext.generateCode d structName).1
        if code != "" then [code] else []
      | none => []) ++ specFieldFrags structName fs
end

/-- The shape of every defaulted extraction template: the emptiness guard
with a body for the non-empty case and the else branch for the empty
case. -/
def emptyGuardElse (varName body elseBody : String) : String :=
  "if val := " ++ varName ++ "; val != \"\" \x7b\n\t\t" ++ body ++
    "\n\t\x7d else \x7b\n\t\t" ++ elseBody ++ "\n\t\x7d"

/-- The shape of every non-defaulted extraction template: the emptiness
guard alone. -/
def emptyGuardOnly (varName body : String) : String :=
  "if val := " ++ varName ++ "; val != \"\" \x7b\n\t\t" ++ body ++ "\n\t\x7d"

/-- What the emitted extraction snippet does at run time with one raw
value. -/
inductive ExtractOutcome (τ : Type) where
  | keptZero
  | assignedDefault
  | assignedRaw
  | assignedParsed (val : τ)
  | conversionError
deriving DecidableEq, Repr

/-- Run-time meaning of the templates GenerateExtractionCode emits, read
off the template text: the guard runs the body only when the raw value is
non-empty (a string-typed body assigns it, a parsing body either parses it
or returns an error), and the else branch — the only place a default
assignment appears — only when it is empty. The parse function abstracts
the type's conversion. -/
def extractionSem {τ : Type} (isString hasDefault : Bool) (parse : String → Option τ)
    (raw : String) : ExtractOutcome τ :=
  if raw != "" then
    if isString then .assignedRaw
    else
      match parse raw with
      | some w => .assignedParsed w
      | none => .conversionError
  else if hasDefault then .assignedDefault else .keptZero

/-- The struct of the spec's cycle test: a struct A whose single field has
type A. -/
def exampleFieldA : FieldData := { name := "Self", type := "A" }

/-- The cyclic struct A itself. -/
def exampleStructA : GoStruct := .mk "A" false [GoField.ofData exampleFieldA]

/-! ## Theorems

Shared helper lemmas come first, then one theorem per claim (with its
witness or counterexample where required). -/

theorem tagLookup_empty (key : String) : tagLookup "" key = none := by
  simp [tagLookup, tagLookupAux]

theorem getParameterName_eq (field : FieldData) (tagName : String) :
    GetParameterName field tagName =
      match tagLookup field.structTag tagName with
      | some v =>
        if v ≠ "" then v
        else if field.inCommentName ≠ "" then field.inCommentName else toCamelCase field.name
      | none =>
        if field.inCommentName ≠ "" then field.inCommentName else toCamelCase field.name := by
  by_cases hst : field.structTag = ""
  · rw [hst]
    simp [GetParameterName, hst, tagLookup_empty]
  · simp only [GetParameterName, bne_iff_ne, ne_eq, hst, not_false_eq_true, if_true]
    cases h : tagLookup field.structTag tagName with
    | none => simp
    | some v =>
      by_cases hv : v = "" <;> simp [hv]

theorem toCamelCase_ne_empty (s : String) (h : s ≠ "") : toCamelCase s ≠ "" := by
  rcases s with ⟨l⟩
  cases l with
  | nil => simp at h
  | cons c cs =>
    simp only [toCamelCase]
    split <;> (intro hc; exact absurd (congrArg String.data hc) (by simp))

/-- C2: for every field and wire source, the wire parameter name follows
the precedence structured-tag value (when present and non-empty), then the
freeform in-directive's name (when non-empty), then the declared field
name with its first letter lowercased; in particular a field carrying both
the tag query:"x" and the comment "in: query y" resolves to "x". -/
theorem C2_parameter_name_precedence :
    (∀ (field : FieldData) (tagName v : String),
      tagLookup field.structTag tagName = some v → v ≠ "" →
        GetParameterName field tagName = v) ∧
    (∀ (field : FieldData) (tagName : String),
      (tagLookup field.structTag tagName = none ∨
        tagLookup field.structTag tagName = some "") →
      field.inCommentName ≠ "" →
        GetParameterName field tagName = field.inCommentName) ∧
    (∀ (field : FieldData) (tagName : String),
      (tagLookup field.structTag tagName = none ∨
        tagLookup field.structTag tagName = some "") →
      field.inCommentName = "" →
        GetParameterName field tagName = toCamelCase field.name) ∧
    GetParameterName
      { name := "Search", type := "string", structTag := "query:\"x\"",
        inComment := (extractInComment "// in: query y").1,
        inCommentName := (extractInComment "// in: query y").2 } "query" = "x" := by
  refine ⟨?_, ?_, ?_, by decide⟩
  · intro field tagName v hl hv
    rw [getParameterName_eq, hl]
    simp [hv]
  · intro field tagName hl hc
    rcases hl with hl | hl <;> rw [getParameterName_eq, hl] <;> simp [hc]
  · intro field tagName hl hc
    rcases hl with hl | hl <;> rw [getParameterName_eq, hl] <;> simp [hc]

/-- C10: a structured tag carrying the requested source key with an empty
value is never returned: resolution falls through to the freeform
directive name when that is non-empty and otherwise to the camelCased
field name, so the wire name is non-empty whenever the field name is. -/
theorem C10_empty_tag_value_never_returned :
    (∀ (field : FieldData) (tagName : String),
      tagLookup field.structTag tagName = some "" →
        GetParameterName field tagName =
          (if field.inCommentName ≠ "" then field.inCommentName
           else toCamelCase field.name)) ∧
    (∀ (field : FieldData) (tagName : String),
      field.name ≠ "" → GetParameterName field tagName ≠ "") := by
  constructor
  · intro field tagName hl
    rw [getParameterName_eq, hl]
    simp
  · intro field tagName hn
    rw [getParameterName_eq]
    cases h : tagLookup field.structTag tagName with
    | none =>
      by_cases hc : field.inCommentName = "" <;>
        simp [hc, toCamelCase_ne_empty field.name hn]
    | some v =>
      by_cases hv : v = ""
      · subst hv
        by_cases hc : field.inCommentName = "" <;>
          simp [hc, toCamelCase_ne_empty field.name hn]
      · simp [hv]

theorem tryFormats_all_fail {τ : Type} (parse : String → String → Option τ) (s : String) :
    ∀ fmts : List String,
      ((∀ fmt ∈ fmts, parse fmt s = none) ↔
        tryFormats parse s fmts =
          .error "unable to parse time: expected RFC3339 or common date format") := by
  intro fmts
  induction fmts with
  | nil => simp [tryFormats]
  | cons f fs ih =>
    simp only [tryFormats]
    cases h : parse f s with
    | none => simpa [h] using ih
    | some t => simp [h]

theorem tryFormats_first {τ : Type} (parse : String → String → Option τ) (s : String) :
    ∀ (l₁ : List String) (fmt : String) (l₂ : List String) (t : τ),
      (∀ f ∈ l₁, parse f s = none) → parse fmt s = some t →
        tryFormats parse s (l₁ ++ fmt :: l₂) = .ok t := by
  intro l₁
  induction l₁ with
  | nil => intro fmt l₂ t _ hp; simp [tryFormats, hp]
  | cons f fs ih =>
    intro fmt l₂ t hfail hp
    have hf : parse f s = none := hfail f (by simp)
    simp only [List.cons_append, tryFormats, hf]
    exact ih fmt l₂ t (fun g hg => hfail g (by simp [hg])) hp

/-- C7: NewTimeFromString tries the fixed layout list in order — RFC3339
first, the bare date last — returns the first layout that parses, and
fails with the fixed error message exactly when no layout matches (never a
default value in place of the error). -/
theorem C7_time_layouts_first_success :
    (∀ (τ : Type) (parse : String → String → Option τ) (s : String),
      (∀ fmt ∈ CommonTimeFormats, parse fmt s = none) ↔
        NewTimeFromString parse s =
          .error "unable to parse time: expected RFC3339 or common date format") ∧
    (∀ (τ : Type) (parse : String → String → Option τ) (s : String)
        (l₁ : List String) (fmt : String) (l₂ : List String) (t : τ),
      CommonTimeFormats = l₁ ++ fmt :: l₂ → (∀ f ∈ l₁, parse f s = none) →
      parse fmt s = some t → NewTimeFromString parse s = .ok t) ∧
    CommonTimeFormats =
      ["2006-01-02T15:04:05Z07:00", "2006-01-02T15:04:05", "2006-01-02T15:04:05.999",
       "2006-01-02T15:04:05.999Z", "2006-01-02T15:04:05.999-07:00",
       "2006-01-02 15:04:05", "2006-01-02"] := by
  refine ⟨?_, ?_, rfl⟩
  · intro τ parse s
    exact tryFormats_all_fail parse s CommonTimeFormats
  · intro τ parse s l₁ fmt l₂ t hsplit hfail hp
    unfold NewTimeFromString
    rw [hsplit]
    exact tryFormats_first parse s l₁ fmt l₂ t hfail hp

/-- C3: without the force override the gate regenerates exactly when no
prior artifact exists, the artifact carries no checksum marker, or the
stored checksum differs from the hash of the current source; when the
stored checksum equals the hash it skips before any parsing or synthesis;
force always regenerates; and the marker search reads only the first ten
lines of the artifact. -/
theorem C3_regeneration_gate :
    (∀ (hash : String → String) (source : String),
      generateWithParserGate false hash source none = .processed) ∧
    (∀ (hash : String → String) (source : String) (artifact : Option String),
      generateWithParserGate false hash source artifact = .processed ↔
        (ExtractChecksum artifact = "" ∨ ExtractChecksum artifact ≠ hash source)) ∧
    (∀ (hash : String → String) (source : String) (artifact : Option String),
      generateWithParserGate false hash source artifact = .skipped ↔
        (ExtractChecksum artifact ≠ "" ∧ ExtractChecksum artifact = hash source)) ∧
    (∀ (hash : String → String) (source : String) (artifact : Option String),
      generateWithParserGate true hash source artifact = .processed) ∧
    (∀ c₁ c₂ : String,
      (splitOnChar '\n' c₁.data).take 10 = (splitOnChar '\n' c₂.data).take 10 →
        ExtractChecksum (some c₁) = ExtractChecksum (some c₂)) := by
  have hgate : ∀ (hash : String → String) (source : String) (artifact : Option String),
      generateWithParserGate false hash source artifact =
        (if ExtractChecksum artifact = "" then GenOutcome.processed
         else if hash source = ExtractChecksum artifact then .skipped else .processed) := by
    intro hash source artifact
    simp only [generateWithParserGate, HasSourceChanged, Bool.not_false, if_true]
    by_cases h0 : ExtractChecksum artifact = ""
    · simp [h0]
    · by_cases heq : hash source = ExtractChecksum artifact <;>
        simp [h0, heq, bne_iff_ne]
  refine ⟨?_, ?_, ?_, ?_, ?_⟩
  · intro hash source
    rw [hgate]
    simp [ExtractChecksum]
  · intro hash source artifact
    rw [hgate]
    by_cases h0 : ExtractChecksum artifact = ""
    · simp [h0]
    · by_cases heq : hash source = ExtractChecksum artifact <;>
        simp [h0, heq, eq_comm]
  · intro hash source artifact
    rw [hgate]
    by_cases h0 : ExtractChecksum artifact = ""
    · simp [h0]
    · by_cases heq : hash source = ExtractChecksum artifact <;>
        simp [h0, heq, eq_comm]
  · intro hash source artifact
    simp [generateWithParserGate]
  · intro c₁ c₂ h
    simp only [ExtractChecksum]
    rw [h]

/-- C8 counterexample: for a slice field whose element type has no
registered codec, the generated code assigns the raw string slice
unchanged — no cast to the declared element type appears anywhere in the
emitted fragment, contradicting the claim that both the scalar and the
slice paths emit a bare cast. -/
theorem C8_counterexample_slice_without_cast :
    (typesGet DefaultRegistry "model.AgentStatus").isNone = true ∧
    (GenerateSliceCodeByType "r.URL.Query()[\"statuses\"]" "Statuses" "model.AgentStatus"
        { name := "Statuses", type := "[]model.AgentStatus", isSlice := true,
          sliceType := "model.AgentStatus" }).1 =
      "if vals := r.URL.Query()[\"statuses\"]; len(vals) > 0 \x7b\n\t\tpayload.Statuses" ++
        " = vals\n\t\x7d" ∧
    strContains
      (GenerateSliceCodeByType "r.URL.Query()[\"statuses\"]" "Statuses" "model.AgentStatus"
        { name := "Statuses", type := "[]model.AgentStatus", isSlice := true,
          sliceType := "model.AgentStatus" }).1 "model.AgentStatus(" = false :=
  ⟨by decide, by decide, by decide⟩

/-- C8 amended: for a base type with no registered codec, the scalar path
emits a bare cast of the raw string with no validation, while the slice
path assigns the raw string slice as-is, also without conversion. -/
theorem C8_unregistered_type_fallbacks :
    (∀ (varName fieldName typeName : String) (field : FieldData),
      IsStringType typeName = false → IsIntType typeName = false →
      IsUintType typeName = false → IsFloatType typeName = false →
      IsBoolType typeName = false →
      typesGet DefaultRegistry typeName = none →
      field.isEmbedded = false → GetDefaultTag field = "" →
        (GenerateCodeByType varName fieldName typeName field).1 =
          emptyGuardOnly varName ("payload." ++ fieldName ++ " = " ++ typeName ++ "(val)")) ∧
    (∀ (varName fieldName elementType : String) (field : FieldData),
      IsStringType elementType = false → IsIntType elementType = false →
      IsUintType elementType = false → IsFloatType elementType = false →
      IsBoolType elementType = false →
      typesGet DefaultRegistry elementType = none →
        (GenerateSliceCodeByType varName fieldName elementType field).1 =
          "if vals := " ++ varName ++ "; len(vals) > 0 \x7b\n\t\tpayload." ++ fieldName ++
            " = vals\n\t\x7d") := by
  constructor
  · intro varName fieldName typeName field hs hi hu hf hb hreg hemb hdef
    simp only [GenerateCodeByType, hs, hi, hu, hf, hb, hreg, hemb,
      Bool.false_eq_true, if_false, Bool.not_false, if_true]
    simp only [GenerateExtractionCode, hdef, hs, emptyGuardOnly]
    simp only [bne_self_eq_false, Bool.false_eq_true, if_false]
    apply String.ext
    simp [String.data_append]
  · intro varName fieldName elementType field hs hi hu hf hb hreg
    simp only [GenerateSliceCodeByType, hs, hi, hu, hf, hb, hreg,
      Bool.false_eq_true, if_false]

mutual
theorem genCode_eq_spec : ∀ (s : GoStruct) (imps : List String),
    (generateExtractionCode s imps).1 = joinLines (specFragments s)
  | .mk sname dto fields, imps => by
    rcases hgl : genLines sname fields imps with ⟨lines, imps'⟩
    have h1 : lines = specFieldFrags sname fields := by
      have := genLines_eq_spec sname fields imps
      rw [hgl] at this
      exact this
    simp only [generateExtractionCode, hgl, specFragments, h1]

theorem genLines_eq_spec : ∀ (structName : String) (fields : List GoField)
      (imps : List String),
    (genLines structName fields imps).1 = specFieldFrags structName fields
  | _, [], imps => by simp [genLines, specFieldFrags]
  | structName, .mk d none :: fs, imps => by
    by_cases hemb : d.isEmbedded = true
    · simp only [genLines, specFieldFrags, hemb, if_true]
      simpa using genLines_eq_spec structName fs imps
    · replace hemb : d.isEmbedded = false := by revert hemb; cases d.isEmbedded <;> simp
      by_cases hraw : d.isRawBody = true
      · simp only [genLines, specFieldFrags, hemb, hraw, Bool.false_eq_true, if_false,
          if_true]
        simpa using genLines_eq_spec structName fs imps
      · replace hraw : d.isRawBody = false := by revert hraw; cases d.isRawBody <;> simp
        simp only [genLines, specFieldFrags, hemb, hraw, Bool.false_eq_true, if_false]
        cases hfind : theExtractors.find? (fun e => e.canExtract d) with
        | none => simpa [hfind] using genLines_eq_spec structName fs imps
        | some ext =>
          rcases hgen : ext.generateCode d structName with ⟨code, newImps⟩
          by_cases hcode : code = ""
          · subst hcode
            simp only [hfind, hgen, bne_self_eq_false, Bool.false_eq_true, if_false]
            simpa using genLines_eq_spec structName fs imps
          · have hb : (code != "") = true := by simpa using hcode
            simp only [hfind, hgen, hb, if_true]
            rcases hrest : genLines structName fs (newImps.foldl insertImport imps)
              with ⟨rest, imps₂⟩
            have h2 : rest = specFieldFrags structName fs := by
              have := genLines_eq_spec structName fs (newImps.foldl insertImport imps)
              rw [hrest] at this
              exact this
            simp [hrest, h2]
  | structName, .mk d (some ns) :: fs, imps => by
    by_cases hemb : d.isEmbedded = true
    · rcases hns : generateExtractionCode ns imps with ⟨nestedCode, imps₁⟩
      have h1 : nestedCode = joinLines (specFragments ns) := by
        have := genCode_eq_spec ns imps
        rw [hns] at this
        exact this
      rcases hrest : genLines structName fs imps₁ with ⟨rest, imps₂⟩
      have h2 : rest = specFieldFrags structName fs := by
        have := genLines_eq_spec structName fs imps₁
        rw [hrest] at this
        exact this
      by_cases hnc : nestedCode = ""
      · simp only [genLines, specFieldFrags, hemb, if_true, hns, hrest, h1.symm, hnc,
          bne_self_eq_false, Bool.false_eq_true, if_false]
        simpa [hnc] using h2
      · have hb : (nestedCode != "") = true := by simpa using hnc
        simp only [genLines, specFieldFrags, hemb, if_true, hns, hrest, h1.symm, hb]
        simp [h1, h2]
    · replace hemb : d.isEmbedded = false := by revert hemb; cases d.isEmbedded <;> simp
      by_cases hraw : d.isRawBody = true
      · simp only [genLines, specFieldFrags, hemb, hraw, Bool.false_eq_true, if_false,
          if_true]
        simpa using genLines_eq_spec structName fs imps
      · replace hraw : d.isRawBody = false := by revert hraw; cases d.isRawBody <;> simp
        simp only [genLines, specFieldFrags, hemb, hraw, Bool.false_eq_true, if_false]
        cases hfind : theExtractors.find? (fun e => e.canExtract d) with
        | none => simpa [hfind] using genLines_eq_spec structName fs imps
        | some ext =>
          rcases hgen : ext.generateCode d structName with ⟨code, newImps⟩
          by_cases hcode : code = ""
          · subst hcode
            simp only [hfind, hgen, bne_self_eq_false, Bool.false_eq_true, if_false]
            simpa using genLines_eq_spec structName fs imps
          · have hb : (code != "") = true := by simpa using hcode
            simp only [hfind, hgen, hb, if_true]
            rcases hrest : genLines structName fs (newImps.foldl insertImport imps)
              with ⟨rest, imps₂⟩
            have h2 : rest = specFieldFrags structName fs := by
              have := genLines_eq_spec structName fs (newImps.foldl insertImport imps)
              rw [hrest] at this
              exact this
            simp [hrest, h2]
end

instance : DecidableRel priLE := fun a b =>
  inferInstanceAs (Decidable (a.priority ≤ b.priority))

theorem pairwise_theExtractors : List.Pairwise priLE theExtractors := by
  decide

theorem find_first_min : ∀ (l : List Extractor), List.Pairwise priLE l →
    ∀ (d : FieldData) (ext : Extractor), l.find? (fun e => e.canExtract d) = some ext →
      ext.canExtract d = true ∧
        ∀ e ∈ l, e.canExtract d = true → ext.priority ≤ e.priority := by
  intro l
  induction l with
  | nil => simp
  | cons a as ih =>
    intro hp d ext hf
    rw [List.find?_cons] at hf
    cases ha : a.canExtract d with
    | true =>
      rw [ha] at hf
      cases hf
      refine ⟨ha, ?_⟩
      intro e he _
      rcases List.mem_cons.mp he with rfl | he'
      · exact le_refl _
      · exact (List.pairwise_cons.mp hp).1 e he'
    | false =>
      rw [ha] at hf
      have := ih (List.pairwise_cons.mp hp).2 d ext hf
      refine ⟨this.1, ?_⟩
      intro e he hce
      rcases List.mem_cons.mp he with rfl | he'
      · rw [ha] at hce; cases hce
      · exact this.2 e he' hce

/-- C4 counterexample: in a payload struct declaring a query-sourced field
before a path-sourced field, the query fragment precedes the path fragment
in the generated parsing code, although the path classifier has the
strictly lower priority — the fragments follow field declaration order,
not classifier-priority order. -/
theorem C4_counterexample_query_fragment_first :
    PathExtractor.priority < QueryExtractor.priority ∧
    (generateExtractionCode
        (.mk "Req" false
          [GoField.ofData
             { name := "Filter", type := "string", structTag := "query:\"filter\"" },
           GoField.ofData
             { name := "ID", type := "string", structTag := "path:\"id\"" }]) []).1 =
      "if val := r.URL.Query().Get(\"filter\"); val != \"\" \x7b\n\t\tpayload.Filter" ++
        " = val\n\t\x7d" ++ "\n\t" ++
        "if val := r.PathValue(\"id\"); val != \"\" \x7b\n\t\tpayload.ID = val\n\t\x7d" ∧
    (generateExtractionCode
        (.mk "Req" false
          [GoField.ofData
             { name := "Filter", type := "string", structTag := "query:\"filter\"" },
           GoField.ofData
             { name := "ID", type := "string", structTag := "path:\"id\"" }]) []).1 ≠
      "if val := r.PathValue(\"id\"); val != \"\" \x7b\n\t\tpayload.ID = val\n\t\x7d" ++
        "\n\t" ++
        "if val := r.URL.Query().Get(\"filter\"); val != \"\" \x7b\n\t\tpayload.Filter" ++
        " = val\n\t\x7d" :=
  ⟨by decide, by decide, by decide⟩

/-- C4 amended: exactly one classifier fires per leaf field — the first
match, in priority order, of the priority-sorted registry — but the
synthesized fragments appear in the generated function in field
declaration order (embedded structs expanded in place), not grouped by
classifier priority. -/
theorem C4_fragments_follow_field_order :
    (∀ (s : GoStruct) (imps : List String),
      (generateExtractionCode s imps).1 = joinLines (specFragments s)) ∧
    (∀ (d : FieldData) (ext : Extractor),
      theExtractors.find? (fun e => e.canExtract d) = some ext →
        ext.canExtract d = true ∧
          ∀ e ∈ theExtractors, e.canExtract d = true → ext.priority ≤ e.priority) := by
  constructor
  · exact genCode_eq_spec
  · intro d ext hf
    exact find_first_min theExtractors pairwise_theExtractors d ext hf

theorem findHandlers_append (structs : List (String × GoStruct)) (pkg : String) :
    ∀ l₁ l₂ : List FuncDecl,
      findHandlers structs pkg (l₁ ++ l₂) =
        ((findHandlers structs pkg l₁).1 ++ (findHandlers structs pkg l₂).1,
         (findHandlers structs pkg l₁).2 ++ (findHandlers structs pkg l₂).2) := by
  intro l₁ l₂
  induction l₁ with
  | nil => simp [findHandlers]
  | cons fn fns ih =>
    rcases hph : parseHandler structs fn pkg with ⟨h, w⟩
    rcases hmid : findHandlers structs pkg (fns ++ l₂) with ⟨hs₁, ws₁⟩
    rw [hmid] at ih
    rw [Prod.mk.injEq] at ih
    simp only [List.cons_append, findHandlers, hph, hmid]
    cases h <;> simp [hmid, ih.1, ih.2]

/-- C9: a function carrying the handler marker whose signature fails the
fixed-shape validation contributes no handler, appends exactly one warning
holding its position and the reason, and the scan of the remaining
declarations proceeds unchanged — the file-level pass never fails (only
unparsable source text aborts a file, before this pass runs). -/
theorem C9_invalid_handler_warns_and_continues :
    (∀ (structs : List (String × GoStruct)) (pkg : String) (fn : FuncDecl),
      hasApikitComment fn = true → isValidHandlerSignature fn = false →
        parseHandler structs fn pkg =
          (none, [fn.pos ++ ": function " ++ fn.name ++
            " has apikit:handler comment but invalid signature"])) ∧
    (∀ (structs : List (String × GoStruct)) (pkg : String)
        (pre post : List FuncDecl) (fn : FuncDecl),
      hasApikitComment fn = true → isValidHandlerSignature fn = false →
        findHandlers structs pkg (pre ++ fn :: post) =
          ((findHandlers structs pkg pre).1 ++ (findHandlers structs pkg post).1,
           (findHandlers structs pkg pre).2 ++
             ((fn.pos ++ ": function " ++ fn.name ++
               " has apikit:handler comment but invalid signature") ::
               (findHandlers structs pkg post).2))) := by
  have hph : ∀ (structs : List (String × GoStruct)) (pkg : String) (fn : FuncDecl),
      hasApikitComment fn = true → isValidHandlerSignature fn = false →
        parseHandler structs fn pkg =
          (none, [fn.pos ++ ": function " ++ fn.name ++
            " has apikit:handler comment but invalid signature"]) := by
    intro structs pkg fn hmark hsig
    simp [parseHandler, hmark, hsig]
  refine ⟨hph, ?_⟩
  intro structs pkg pre post fn hmark hsig
  rw [findHandlers_append structs pkg pre (fn :: post)]
  have hsingle : findHandlers structs pkg (fn :: post) =
      ((findHandlers structs pkg post).1,
       (fn.pos ++ ": function " ++ fn.name ++
         " has apikit:handler comment but invalid signature") ::
         (findHandlers structs pkg post).2) := by
    rcases hpost : findHandlers structs pkg post with ⟨hs, ws⟩
    simp [findHandlers, hph structs pkg fn hmark hsig, hpost]
  rw [hsingle]

/-- C9 witness: a concrete marked function with a bad signature (a single
string parameter) is skipped with the expected warning while a marked
valid handler after it is still found. -/
theorem C9_witness :
    hasApikitComment { name := "Bad", doc := ["// apikit:handler"], pos := "f.go:3:1", params := [TypeExpr.ident "string"] } = true ∧
      isValidHandlerSignature { name := "Bad", doc := ["// apikit:handler"], pos := "f.go:3:1", params := [TypeExpr.ident "string"] } = false ∧
      findHandlers [] "pkg"
          ([] ++ { name := "Bad", doc := ["// apikit:handler"], pos := "f.go:3:1", params := [TypeExpr.ident "string"] } :: []) =
        ((findHandlers [] "pkg" []).1 ++ (findHandlers [] "pkg" []).1,
         (findHandlers [] "pkg" []).2 ++
           (("f.go:3:1" ++ ": function " ++ "Bad" ++
             " has apikit:handler comment but invalid signature") ::
             (findHandlers [] "pkg" []).2)) :=
  ⟨by decide, by decide,
    C9_invalid_handler_warns_and_continues.2 [] "pkg" [] []
      { name := "Bad", doc := ["// apikit:handler"], pos := "f.go:3:1", params := [TypeExpr.ident "string"] } (by decide) (by decide)⟩

/-- C6: a declared default is assigned only in the else branch of the
emptiness guard — the branch taken when the raw value is absent or empty —
and a present, non-empty raw value that fails conversion ends in the
emitted error return, never in the default: the emitted template has the
guard-with-else shape, and its run-time meaning assigns the default
exactly when the raw value is empty and errors on a failed parse. -/
theorem C6_default_only_when_absent_or_empty :
    (∀ (varName fieldName typeName : String) (field : FieldData)
        (pf : String → String → String) (imports : List String),
      GetDefaultTag field ≠ "" → IsStringType typeName = false →
        (GenerateExtractionCode varName fieldName typeName field (some pf) imports).1 =
          emptyGuardElse varName (pf "val" fieldName)
            (GenerateDefaultValue fieldName (GetDefaultTag field) typeName)) ∧
    (∀ (varName fieldName typeName : String) (field : FieldData)
        (parsingFunc : Option (String → String → String)) (imports : List String),
      GetDefaultTag field ≠ "" → IsStringType typeName = true →
        (GenerateExtractionCode varName fieldName typeName field parsingFunc imports).1 =
          emptyGuardElse varName ("payload." ++ fieldName ++ " = val")
            (GenerateDefaultValue fieldName (GetDefaultTag field) typeName)) ∧
    (∀ (τ : Type) (isString hasDefault : Bool) (parse : String → Option τ) (raw : String),
      extractionSem isString hasDefault parse raw = .assignedDefault →
        raw = "" ∧ hasDefault = true) ∧
    (∀ (τ : Type) (hasDefault : Bool) (parse : String → Option τ) (raw : String),
      raw ≠ "" → parse raw = none →
        extractionSem false hasDefault parse raw = .conversionError) := by
  refine ⟨?_, ?_, ?_, ?_⟩
  · intro varName fieldName typeName field pf imports hdef hs
    have hb : (GetDefaultTag field != "") = true := by simpa using hdef
    simp only [GenerateExtractionCode, hs, Bool.false_eq_true, if_false, hb, if_true,
      emptyGuardElse]
  · intro varName fieldName typeName field parsingFunc imports hdef hs
    have hb : (GetDefaultTag field != "") = true := by simpa using hdef
    simp only [GenerateExtractionCode, hs, if_true, hb, emptyGuardElse]
    apply String.ext
    simp [String.data_append]
  · intro τ isString hasDefault parse raw hsem
    by_cases hr : raw = ""
    · subst hr
      cases hasDefault <;> simp_all [extractionSem]
    · exfalso
      have hb : (raw != "") = true := by simpa using hr
      cases isString <;> simp only [extractionSem, hb, if_true] at hsem
      · cases hp : parse raw <;> simp [hp] at hsem
      · simp at hsem
  · intro τ hasDefault parse raw hr hp
    have hb : (raw != "") = true := by simpa using hr
    simp [extractionSem, hb, hp]

theorem sortInsert_append_of_ge (x : Extractor) :
    ∀ l : List Extractor, (∀ y ∈ l, ¬ extrCmp x y < 0) →
      sortInsert extrCmp x l = l ++ [x] := by
  intro l
  induction l with
  | nil => intro _; simp [sortInsert]
  | cons y ys ih =>
    intro h
    have hy : ¬ extrCmp x y < 0 := h y (by simp)
    simp only [sortInsert, if_neg hy, List.cons_append, List.cons.injEq, true_and]
    exact ih (fun z hz => h z (by simp [hz]))

theorem insertionFold_sorted_aux :
    ∀ (l acc : List Extractor), List.Pairwise priLE (acc ++ l) →
      List.foldl (fun a x => sortInsert extrCmp x a) acc l = acc ++ l := by
  intro l
  induction l with
  | nil => intro acc _; simp
  | cons x xs ih =>
    intro acc hp
    have hins : sortInsert extrCmp x acc = acc ++ [x] := by
      apply sortInsert_append_of_ge
      intro y hy
      have hle : priLE y x := (List.pairwise_append.mp hp).2.2 y hy x (by simp)
      simp only [priLE] at hle
      simp only [extrCmp]
      omega
    simp only [List.foldl_cons, hins]
    have hp' : List.Pairwise priLE ((acc ++ [x]) ++ xs) := by
      simpa [List.append_assoc] using hp
    rw [ih (acc ++ [x]) hp']
    simp

theorem mem_sortInsert (x z : Extractor) :
    ∀ l, z ∈ sortInsert extrCmp x l → z = x ∨ z ∈ l := by
  intro l
  induction l with
  | nil => simp [sortInsert]
  | cons y ys ih =>
    intro hz
    by_cases hc : extrCmp x y < 0
    · simp only [sortInsert, if_pos hc] at hz
      rcases List.mem_cons.mp hz with rfl | h'
      · exact Or.inl rfl
      · exact Or.inr h'
    · simp only [sortInsert, if_neg hc] at hz
      rcases List.mem_cons.mp hz with rfl | h'
      · exact Or.inr (by simp)
      · rcases ih h' with rfl | h''
        · exact Or.inl rfl
        · exact Or.inr (by simp [h''])

theorem sortInsert_sorted (x : Extractor) :
    ∀ l, List.Pairwise priLE l → List.Pairwise priLE (sortInsert extrCmp x l) := by
  intro l
  induction l with
  | nil => intro _; simp [sortInsert]
  | cons y ys ih =>
    intro hp
    rcases List.pairwise_cons.mp hp with ⟨hy, hys⟩
    by_cases hc : extrCmp x y < 0
    · simp only [sortInsert, if_pos hc]
      refine List.pairwise_cons.mpr ⟨?_, hp⟩
      intro z hz
      rcases List.mem_cons.mp hz with rfl | hz'
      · simp only [priLE]
        simp only [extrCmp] at hc
        omega
      · have hyz := hy z hz'
        simp only [priLE] at hyz ⊢
        simp only [extrCmp] at hc
        omega
    · simp only [sortInsert, if_neg hc]
      refine List.pairwise_cons.mpr ⟨?_, ih hys⟩
      intro z hz
      rcases mem_sortInsert x z ys hz with rfl | hz'
      · simp only [priLE]
        simp only [extrCmp] at hc
        omega
      · exact hy z hz'

theorem sortInsert_filter (x : Extractor) (p : Int) :
    ∀ l, List.Pairwise priLE l →
      (sortInsert extrCmp x l).filter (fun e => e.priority == p) =
        (if x.priority == p then l.filter (fun e => e.priority == p) ++ [x]
         else l.filter (fun e => e.priority == p)) := by
  intro l
  induction l with
  | nil =>
    intro _
    by_cases hx : (x.priority == p) = true <;> simp [sortInsert, List.filter, hx]
  | cons y ys ih =>
    intro hp
    rcases List.pairwise_cons.mp hp with ⟨hy, hys⟩
    by_cases hc : extrCmp x y < 0
    · simp only [sortInsert, if_pos hc]
      by_cases hx : (x.priority == p) = true
      · have hxp : x.priority = p := by simpa using hx
        have hnone : (y :: ys).filter (fun e => e.priority == p) = [] := by
          apply List.filter_eq_nil_iff.mpr
          intro e he
          have hyle : y.priority ≤ e.priority := by
            rcases List.mem_cons.mp he with rfl | he'
            · exact le_refl _
            · exact hy e he'
          simp only [extrCmp] at hc
          simp only [beq_iff_eq]
          omega
        rw [List.filter_cons_of_pos (by simpa using hx)]
        rw [hnone]
        simp [hx]
      · rw [List.filter_cons_of_neg (by simpa using hx)]
        simp [hx]
    · simp only [sortInsert, if_neg hc]
      rw [List.filter_cons, List.filter_cons]
      by_cases hyp : (y.priority == p) = true <;>
        by_cases hx : (x.priority == p) = true <;>
          simp [hyp, hx, ih hys]

theorem dGet_append {α : Type} [Inhabited α] :
    ∀ (q l : List α) (k : Nat), dGet (q ++ l) (q.length + k) = dGet l k := by
  intro q
  induction q with
  | nil => intro l k; simp [dGet]
  | cons a q ih =>
    intro l k
    show dGet (a :: (q ++ l)) (q.length + 1 + k) = dGet l k
    rw [show q.length + 1 + k = (q.length + k) + 1 from by omega]
    simpa [dGet, List.getD] using ih l k

theorem set_append_len {α : Type} :
    ∀ (q : List α) (z : α) (l : List α) (v : α),
      (q ++ z :: l).set q.length v = q ++ v :: l := by
  intro q
  induction q with
  | nil => intro z l v; rfl
  | cons a q ih => intro z l v; simp [List.set, ih]

theorem set_append_len1 {α : Type} (q : List α) (z w : α) (l : List α) (v : α) :
    (q ++ z :: w :: l).set (q.length + 1) v = q ++ z :: v :: l := by
  have h := set_append_len (q ++ [z]) w l v
  simpa [List.append_assoc] using h

theorem dSwap_adjacent {α : Type} [Inhabited α] (q : List α) (y x : α) (rest : List α) :
    dSwap (q ++ y :: x :: rest) (q.length + 1) q.length = q ++ x :: y :: rest := by
  have hg1 : dGet (q ++ y :: x :: rest) q.length = y := by
    simpa [dGet, List.getD] using dGet_append q (y :: x :: rest) 0
  have hg2 : dGet (q ++ y :: x :: rest) (q.length + 1) = x := by
    simpa [dGet, List.getD] using dGet_append q (y :: x :: rest) 1
  unfold dSwap
  rw [hg1, hg2]
  rw [set_append_len1 q y x rest y]
  rw [set_append_len q y (y :: rest) x]

theorem sortInsert_length {α : Type} (cmp : α → α → Int) (x : α) :
    ∀ l : List α, (sortInsert cmp x l).length = l.length + 1 := by
  intro l
  induction l with
  | nil => rfl
  | cons y ys ih =>
    by_cases h : cmp x y < 0 <;> simp [sortInsert, h, ih]

theorem sortInsert_append_lt {α : Type} (cmp : α → α → Int) (x y : α)
    (h : cmp x y < 0) :
    ∀ q : List α, sortInsert cmp x (q ++ [y]) = sortInsert cmp x q ++ [y] := by
  intro q
  induction q with
  | nil => simp [sortInsert, h]
  | cons z q ih =>
    by_cases hz : cmp x z < 0 <;> simp [sortInsert, hz, ih]

theorem insertionInner_eq (x : Extractor) :
    ∀ p : List Extractor, List.Pairwise priLE p → ∀ rest : List Extractor,
      insertionInner extrCmp 0 (p ++ x :: rest) p.length =
        sortInsert extrCmp x p ++ rest := by
  intro p
  induction p using List.reverseRecOn with
  | nil =>
    intro _ rest
    rfl
  | append_singleton q y ih =>
    intro hp rest
    have hq : List.Pairwise priLE q := (List.pairwise_append.mp hp).1
    have hall : ∀ z ∈ q, priLE z y := by
      intro z hz
      exact (List.pairwise_append.mp hp).2.2 z hz y (by simp)
    have hdata : (q ++ [y]) ++ x :: rest = q ++ y :: x :: rest := by simp
    have hlen : (q ++ [y]).length = q.length + 1 := by simp
    rw [hdata, hlen]
    have hg1 : dGet (q ++ y :: x :: rest) q.length = y := by
      simpa [dGet, List.getD] using dGet_append q (y :: x :: rest) 0
    have hg2 : dGet (q ++ y :: x :: rest) (q.length + 1) = x := by
      simpa [dGet, List.getD] using dGet_append q (y :: x :: rest) 1
    simp only [insertionInner, hg1, hg2]
    by_cases hxy : extrCmp x y < 0
    · rw [if_pos ⟨Nat.succ_pos q.length, hxy⟩]
      rw [dSwap_adjacent q y x rest]
      rw [ih hq (y :: rest)]
      rw [sortInsert_append_lt extrCmp x y hxy q]
      simp
    · rw [if_neg (fun hc => hxy hc.2)]
      have hins : sortInsert extrCmp x (q ++ [y]) = (q ++ [y]) ++ [x] := by
        apply sortInsert_append_of_ge
        intro z hz
        rcases List.mem_append.mp hz with hzq | hzy
        · have hle := hall z hzq
          simp only [priLE] at hle
          simp only [extrCmp] at hxy ⊢
          omega
        · have hzy' : z = y := by simpa using hzy
          subst hzy'
          exact hxy
      rw [hins]
      simp

theorem insertionLoop_eq :
    ∀ (rest p : List Extractor), List.Pairwise priLE p →
      insertionLoop extrCmp 0 rest.length p.length (p ++ rest) =
        List.foldl (fun acc x => sortInsert extrCmp x acc) p rest := by
  intro rest
  induction rest with
  | nil =>
    intro p _
    simp [insertionLoop]
  | cons r rest ih =>
    intro p hp
    simp only [List.length_cons, insertionLoop, List.foldl_cons]
    rw [insertionInner_eq r p hp rest]
    have hlen : (sortInsert extrCmp r p).length = p.length + 1 :=
      sortInsert_length extrCmp r p
    have hrec := ih (sortInsert extrCmp r p) (sortInsert_sorted r p hp)
    rw [hlen] at hrec
    exact hrec

theorem insertionSortArr_eq (data : List Extractor) :
    insertionSortArr extrCmp data 0 data.length = insertionFold extrCmp data := by
  cases data with
  | nil => rfl
  | cons x rest =>
    simp only [insertionSortArr, insertionFold, List.length_cons, List.foldl_cons]
    rw [show rest.length + 1 - (0 + 1) = rest.length from by omega]
    have h := insertionLoop_eq rest [x] (by simp)
    simpa [sortInsert] using h

theorem SortFuncGo_small (data : List Extractor) (h : data.length ≤ 12) :
    SortFuncGo data extrCmp = insertionFold extrCmp data := by
  rw [← insertionSortArr_eq data]
  simp [SortFuncGo, pdqsortF, h]

theorem Register_small (l : List Extractor) (x : Extractor)
    (hlen : l.length < 12) (h : List.Pairwise priLE l) :
    Register l x = sortInsert extrCmp x l := by
  unfold Register
  rw [SortFuncGo_small (l ++ [x])
    (by simp only [List.length_append, List.length_cons, List.length_nil]; omega)]
  unfold insertionFold
  rw [List.foldl_append]
  simp only [List.foldl_cons, List.foldl_nil]
  rw [insertionFold_sorted_aux l [] (by simpa using h)]
  simp

theorem registerAll_aux :
    ∀ (regs acc : List Extractor), List.Pairwise priLE acc →
      acc.length + regs.length ≤ 12 →
      List.Pairwise priLE (List.foldl Register acc regs) ∧
      ∀ p : Int, (List.foldl Register acc regs).filter (fun e => e.priority == p) =
        acc.filter (fun e => e.priority == p) ++ regs.filter (fun e => e.priority == p) := by
  intro regs
  induction regs with
  | nil =>
    intro acc h _
    exact ⟨h, fun p => by simp⟩
  | cons e es ih =>
    intro acc hacc hlen
    have hacclt : acc.length < 12 := by
      simp only [List.length_cons] at hlen
      omega
    have hreg : Register acc e = sortInsert extrCmp e acc := Register_small acc e hacclt hacc
    have hsorted : List.Pairwise priLE (Register acc e) := by
      rw [hreg]; exact sortInsert_sorted e acc hacc
    have hlen' : (Register acc e).length + es.length ≤ 12 := by
      rw [hreg, sortInsert_length extrCmp e acc]
      simp only [List.length_cons] at hlen
      omega
    have hrec := ih (Register acc e) hsorted hlen'
    refine ⟨hrec.1, ?_⟩
    intro p
    rw [List.foldl_cons]
    rw [hrec.2 p, hreg, sortInsert_filter e p acc hacc]
    rw [List.filter_cons]
    by_cases he : (e.priority == p) = true <;> simp [he]

/-- C1 (amended): for every registration sequence of at most twelve
extractors — the regime in which slices.SortFunc's pdqsort is exactly its
insertion sort, and which covers the eight extractors this repository
registers — the registry GetExtractors returns is sorted by ascending
priority and extractors of equal priority keep their registration order
(for every priority value, filtering the registry at that priority
reproduces the registration-order sublist), so repeated runs consult
classifiers lowest-priority-number first, deterministically; the actual
eight-extractor registry comes out in the expected order. Beyond twelve
elements the equal-priority guarantee fails. -/
theorem C1_small_registry_sorted_and_stable :
    (∀ regs : List Extractor, regs.length ≤ 12 →
      List.Pairwise priLE (GetExtractors (registerAll regs))) ∧
    (∀ (regs : List Extractor) (p : Int), regs.length ≤ 12 →
      (GetExtractors (registerAll regs)).filter (fun e => e.priority == p) =
        regs.filter (fun e => e.priority == p)) ∧
    theExtractors.map Extractor.name =
      ["path", "form", "query", "header", "cookie", "body", "request", "response"] ∧
    theExtractors.map Extractor.priority = [10, 15, 20, 30, 35, 40, 50, 60] := by
  refine ⟨?_, ?_, by decide, by decide⟩
  · intro regs hlen
    exact (registerAll_aux regs [] (by simp) (by simpa using hlen)).1
  · intro regs p hlen
    simpa using (registerAll_aux regs [] (by simp) (by simpa using hlen)).2 p

set_option maxRecDepth 16384 in
/-- C1 counterexample: thirteen registrations — two priority-10
extractors first, ten of ascending priority, then one of priority 5 —
make the final Register call sort thirteen elements, where pdqsort's
partition (whose opening move swaps data[a] with the pivot) reorders the
two priority-10 extractors: the registry comes out sorted by priority but
filtered at priority 10 it reads B, A while the registration order was
A, B, refuting the original claim's for-every-sequence equal-priority
stability conjunct. -/
theorem C1_counterexample_equal_priority_reordered :
    (cexRegistrations.filter (fun e => e.priority == 10)).map Extractor.name =
      ["A", "B"] ∧
    ((GetExtractors (registerAll cexRegistrations)).filter
        (fun e => e.priority == 10)).map Extractor.name = ["B", "A"] ∧
    ((GetExtractors (registerAll cexRegistrations)).filter
        (fun e => e.priority == 10)).map Extractor.name ≠
      (cexRegistrations.filter (fun e => e.priority == 10)).map Extractor.name ∧
    List.Pairwise priLE (GetExtractors (registerAll cexRegistrations)) ∧
    (GetExtractors (registerAll cexRegistrations)).map Extractor.name =
      ["M", "B", "A", "C", "D", "E", "F", "G", "H", "I", "J", "K", "L"] := by
  refine ⟨by decide, by decide, by decide, by decide, by decide⟩

theorem visSub_refl (v : List String) : visSub v v := fun _ hx => hx

theorem visSub_cons (v : List String) (t : String) : visSub v (t :: v) := by
  intro x hx
  simp only [List.contains_cons, hx, Bool.or_true]

theorem visSub_trans (u v w : List String) (h1 : visSub u v) (h2 : visSub v w) :
    visSub u w := fun x hx => h2 x (h1 x hx)

theorem filter_length_mono {α : Type} (p q : α → Bool) (h : ∀ a, q a = true → p a = true) :
    ∀ l : List α, (l.filter q).length ≤ (l.filter p).length := by
  intro l
  induction l with
  | nil => simp
  | cons a as ih =>
    rw [List.filter_cons, List.filter_cons]
    cases hq : q a with
    | true =>
      rw [h a hq]
      simpa using ih
    | false =>
      cases hp : p a with
      | true =>
        simp only [if_false, Bool.false_eq_true, if_true, List.length_cons]
        omega
      | false => simpa using ih
  
theorem filter_length_lt {α : Type} (p q : α → Bool) (h : ∀ a, q a = true → p a = true) :
    ∀ l : List α, ∀ w ∈ l, p w = true → q w = false →
      (l.filter q).length < (l.filter p).length := by
  intro l
  induction l with
  | nil => simp
  | cons a as ih =>
    intro w hw hpw hqw
    rw [List.filter_cons, List.filter_cons]
    rcases List.mem_cons.mp hw with rfl | hw'
    · rw [hpw, hqw]
      simp only [Bool.false_eq_true, if_false, if_true, List.length_cons]
      have := filter_length_mono p q h as
      omega
    · cases hq : q a with
      | true =>
        rw [h a hq]
        simpa using ih w hw' hpw hqw
      | false =>
        cases hp : p a with
        | true =>
          simp only [Bool.false_eq_true, if_false, if_true, List.length_cons]
          have := ih w hw' hpw hqw
          omega
        | false => simpa using ih w hw' hpw hqw

theorem unvisited_mono (cache : List (String × GoStruct)) (v v' : List String)
    (h : visSub v v') : unvisitedCount cache v' ≤ unvisitedCount cache v := by
  apply filter_length_mono
  intro a ha
  cases hcv : v.contains a.2.name with
  | false => simp
  | true =>
    have := h _ hcv
    rw [this] at ha
    simp at ha

theorem unvisited_cons_lt (cache : List (String × GoStruct)) (t : String)
    (ns : GoStruct) (v : List String) (hlook : lookupStruct cache t = some ns)
    (hnv : v.contains ns.name = false) :
    unvisitedCount cache (ns.name :: v) < unvisitedCount cache v := by
  have hfind : ∃ e, List.find? (fun p => p.1 == t) cache = some e ∧ e.2 = ns := by
    rcases hfe : List.find? (fun p => p.1 == t) cache with _ | e
    · simp [lookupStruct, hfe] at hlook
    · simp only [lookupStruct, hfe, Option.map_some', Option.some.injEq] at hlook
      exact ⟨e, hfe, hlook⟩
  rcases hfind with ⟨e, hfe, hens⟩
  apply filter_length_lt _ _ ?_ cache e (List.mem_of_find?_eq_some hfe)
  · rw [hens, hnv]
    simp
  · rw [hens]
    simp [List.contains_cons]
  · intro a ha
    cases hcv : v.contains a.2.name with
    | false => simp
    | true =>
      have hc : (ns.name :: v).contains a.2.name = true := by
        simp only [List.contains_cons, hcv, Bool.or_true]
      rw [hc] at ha
      simp at ha

theorem resolveTerm (cache : List (String × GoStruct)) :
    ∀ fuel : Nat,
      (∀ (f : GoField) (v : List String), unvisitedCount cache v < fuel →
        ∃ r, resolveFieldF cache fuel f v = some r ∧ visSub v r.2) ∧
      (∀ (fs : List GoField) (v : List String), unvisitedCount cache v < fuel →
        ∃ r, resolveFieldsF cache fuel fs v = some r ∧ visSub v r.2) := by
  intro fuel
  induction fuel using Nat.strong_induction_on with
  | _ fuel ih =>
    have hR : ∀ (f : GoField) (v : List String), unvisitedCount cache v < fuel →
        ∃ r, resolveFieldF cache fuel f v = some r ∧ visSub v r.2 := by
      intro f v hlt
      rcases f with ⟨d, nested⟩
      by_cases hspec : (d.isRawBody || d.isResponseWriter || d.isRequest) = true
      · refine ⟨(.mk d nested, v), ?_, visSub_refl v⟩
        simp [resolveFieldF, hspec]
      · replace hspec : (d.isRawBody || d.isResponseWriter || d.isRequest) = false := by
          revert hspec
          cases h : (d.isRawBody || d.isResponseWriter || d.isRequest) <;> simp
        cases hlook : lookupStruct cache (fieldBaseType d) with
        | none =>
          refine ⟨(.mk (setPackagePath d (fieldBaseType d)) nested, v), ?_, visSub_refl v⟩
          simp [resolveFieldF, hspec, hlook]
        | some ns =>
          by_cases hvis : v.contains (fieldBaseType d) = true
          · have hmem : fieldBaseType d ∈ v := by simpa using hvis
            refine ⟨(.mk (setPackagePath d (fieldBaseType d))
              (some (.mk ns.name ns.isDTO [])), v), ?_, visSub_refl v⟩
            simp [resolveFieldF, hspec, hlook, hvis, hmem]
          · replace hvis : v.contains (fieldBaseType d) = false := by
              revert hvis
              cases h : v.contains (fieldBaseType d) <;> simp
            have hmem : ¬ fieldBaseType d ∈ v := by
              intro hx
              rw [show v.contains (fieldBaseType d) = true by simpa using hx] at hvis
              cases hvis
            obtain ⟨m, rfl⟩ : ∃ m, fuel = m + 1 := ⟨fuel - 1, by omega⟩
            by_cases hnv : v.contains ns.name = true
            · have hmem2 : ns.name ∈ v := by simpa using hnv
              refine ⟨(.mk (setPackagePath d (fieldBaseType d)) (some ns), v), ?_,
                visSub_refl v⟩
              simp [resolveFieldF, hspec, hlook, hvis, hmem, resolveStructF, hnv, hmem2]
            · replace hnv : v.contains ns.name = false := by
                revert hnv
                cases h : v.contains ns.name <;> simp
              have hmem2 : ¬ ns.name ∈ v := by
                intro hx
                rw [show v.contains ns.name = true by simpa using hx] at hnv
                cases hnv
              have hdec := unvisited_cons_lt cache (fieldBaseType d) ns v hlook hnv
              obtain ⟨⟨fs', v'⟩, hfs, hsub⟩ :=
                (ih m (by omega)).2 ns.fields (ns.name :: v) (by omega)
              refine ⟨(.mk (setPackagePath d (fieldBaseType d))
                (some (.mk ns.name ns.isDTO fs')), v'), ?_, ?_⟩
              · simp [resolveFieldF, hspec, hlook, hvis, hmem, resolveStructF, hnv,
                  hmem2, hfs]
              · exact visSub_trans v (ns.name :: v) v' (visSub_cons v ns.name) hsub
    refine ⟨hR, ?_⟩
    intro fs
    induction fs with
    | nil =>
      intro v _
      exact ⟨([], v), by simp [resolveFieldsF], visSub_refl v⟩
    | cons f fs ihfs =>
      intro v hlt
      obtain ⟨⟨f', v'⟩, hf, hsub1⟩ := hR f v hlt
      have hlt' : unvisitedCount cache v' < fuel :=
        lt_of_le_of_lt (unvisited_mono cache v v' hsub1) hlt
      obtain ⟨⟨fs', v''⟩, hfs, hsub2⟩ := ihfs v' hlt'
      refine ⟨(f' :: fs', v''), ?_, visSub_trans v v' v'' hsub1 hsub2⟩
      simp [resolveFieldsF, hf, hfs]

theorem resolveStruct_total (cache : List (String × GoStruct)) (s : GoStruct)
    (v : List String) : ∃ r, resolveStruct cache s v = some r := by
  unfold resolveStruct
  rw [show unvisitedCount cache v + 2 = (unvisitedCount cache v + 1) + 1 from rfl]
  by_cases hv : v.contains s.name = true
  · have hmem : s.name ∈ v := by simpa using hv
    exact ⟨(s, v), by simp [resolveStructF, hv, hmem]⟩
  · replace hv : v.contains s.name = false := by
      revert hv
      cases h : v.contains s.name <;> simp
    have hmem : ¬ s.name ∈ v := by
      intro hx
      rw [show v.contains s.name = true by simpa using hx] at hv
      cases hv
    have hmono := unvisited_mono cache v (s.name :: v) (visSub_cons v s.name)
    obtain ⟨⟨fs', v'⟩, hfs, _⟩ :=
      (resolveTerm cache (unvisitedCount cache v + 1)).2 s.fields (s.name :: v) (by omega)
    exact ⟨(.mk s.name s.isDTO fs', v'), by simp [resolveStructF, hv, hmem, hfs]⟩

/-- C5: the nested-type resolver terminates on every input, cyclic struct
graphs included — at the computed fuel bound the out-of-fuel answer is
never reached; a field whose base type name is already in the visited set
gets a NestedStruct carrying only the name and flags with an empty field
list, and no error arises; concretely, a struct A containing a field of
type A resolves, with the nested copy of A holding no fields. -/
theorem C5_resolver_terminates_and_breaks_cycles :
    (∀ (cache : List (String × GoStruct)) (s : GoStruct) (v : List String),
      (resolveStruct cache s v).isSome = true) ∧
    (∀ (cache : List (String × GoStruct)) (fuel : Nat) (d : FieldData)
        (nested : Option GoStruct) (v : List String) (ns : GoStruct),
      (d.isRawBody || d.isResponseWriter || d.isRequest) = false →
      lookupStruct cache (fieldBaseType d) = some ns →
      v.contains (fieldBaseType d) = true →
        resolveFieldF cache fuel (.mk d nested) v =
          some (.mk (setPackagePath d (fieldBaseType d))
            (some (.mk ns.name ns.isDTO [])), v)) ∧
    resolveStruct [("A", exampleStructA)] exampleStructA [] =
      some (.mk "A" false [.mk exampleFieldA (some (.mk "A" false []))], ["A"]) := by
  refine ⟨?_, ?_, ?_⟩
  · intro cache s v
    obtain ⟨r, hr⟩ := resolveStruct_total cache s v
    simp [hr]
  · intro cache fuel d nested v ns hspec hlook hvis
    have hmem : fieldBaseType d ∈ v := by simpa using hvis
    simp [resolveFieldF, hspec, hlook, hvis, hmem]
  · have hspec : (exampleFieldA.isRawBody || exampleFieldA.isResponseWriter ||
        exampleFieldA.isRequest) = false := rfl
    have hbase : fieldBaseType exampleFieldA = "A" := rfl
    have hset : setPackagePath exampleFieldA "A" = exampleFieldA := rfl
    have hlook : lookupStruct [("A", exampleStructA)] "A" = some exampleStructA := rfl
    have hvis : (["A"] : List String).contains "A" = true := rfl
    have hmem : "A" ∈ (["A"] : List String) := by simp
    have hname : exampleStructA.name = "A" := rfl
    have hdto : exampleStructA.isDTO = false := rfl
    have hflds : exampleStructA.fields = [GoField.ofData exampleFieldA] := rfl
    have h1 : resolveFieldF [("A", exampleStructA)] 2 (GoField.ofData exampleFieldA)
        ["A"] = some (.mk exampleFieldA (some (.mk "A" false [])), ["A"]) := by
      simp [resolveFieldF, GoField.ofData, hspec, hbase, hset, hlook, hvis, hmem,
        hname, hdto]
    have h2 : resolveFieldsF [("A", exampleStructA)] 2
        [GoField.ofData exampleFieldA] ["A"] =
        some ([.mk exampleFieldA (some (.mk "A" false []))], ["A"]) := by
      simp [resolveFieldsF, h1]
    have hu : unvisitedCount [("A", exampleStructA)] [] + 2 = 2 + 1 := rfl
    rw [resolveStruct, hu]
    have hmem0 : ¬ "A" ∈ ([] : List String) := by simp
    simp [resolveStructF, hmem0, hname, hdto, hflds, h2]
